import Mathlib

/-!
Verification of the fuzz orchestrator (`scripts/fuzz_orchestrator.py`): a shallow
embedding of its configuration model, config loader, build scheduler, run
scheduler and top-level driver, together with proofs of the specified
properties.

YAML documents are modelled by `YVal`; Python semantics that the script relies
on (truthiness, `dict.get`, `str()`, `int()`, exception propagation) are
modelled explicitly.  Exceptions are modelled by `Except PyErr`; only
`OrchestratorError` (`PyErr.orchestrator`) is caught by the script's handlers,
every other `PyErr` constructor models an exception class the script does not
catch.
-/

set_option linter.unusedVariables false

/-- A parsed YAML value, as produced by `yaml.safe_load` (mapping keys are
modelled as strings, which is what the orchestrator's configuration uses). -/
inductive YVal where
  | null
  | bool (b : Bool)
  | int (n : Int)
  | str (s : String)
  | list (xs : List YVal)
  | map (kvs : List (String × YVal))

/-- Python truthiness (`bool(v)`) for YAML values. -/
def truthy : YVal → Bool
  | .null => false
  | .bool b => b
  | .int n => n != 0
  | .str s => s != ""
  | .list xs => !xs.isEmpty
  | .map kvs => !kvs.isEmpty

mutual
/-- Python `str(v)` for YAML values. -/
def pyStr : YVal → String
  | .null => ("None")
  | .bool b => if b then ("True") else ("False")
  | .int n => toString n
  | .str s => s
  | .list xs => ("[") ++ String.intercalate (", ") (pyReprList xs) ++ ("]")
  | .map kvs => ("\x7b") ++ String.intercalate (", ") (pyReprPairs kvs) ++ ("\x7d")

/-- Python `repr(v)`, used for elements when rendering containers. -/
def pyRepr : YVal → String
  | .str s => ("\x27") ++ s ++ ("\x27")
  | v => pyStr v

def pyReprList : List YVal → List String
  | [] => []
  | x :: xs => pyRepr x :: pyReprList xs

def pyReprPairs : List (String × YVal) → List String
  | [] => []
  | (k, v) :: kvs => (("\x27") ++ k ++ ("\x27: ") ++ pyRepr v) :: pyReprPairs kvs
end

mutual
/-- Python structural equality (`==`) on YAML values. -/
def yeq : YVal → YVal → Bool
  | .null, .null => true
  | .bool a, .bool b => a == b
  | .int a, .int b => a == b
  | .str a, .str b => a == b
  | .list a, .list b => yeqList a b
  | .map a, .map b => yeqPairs a b
  | _, _ => false

def yeqList : List YVal → List YVal → Bool
  | [], [] => true
  | x :: xs, y :: ys => yeq x y && yeqList xs ys
  | _, _ => false

def yeqPairs : List (String × YVal) → List (String × YVal) → Bool
  | [], [] => true
  | (k, v) :: xs, (k', v') :: ys => k == k' && yeq v v' && yeqPairs xs ys
  | _, _ => false
end

mutual
theorem yeq_refl : (a : YVal) → yeq a a = true
  | .null => rfl
  | .bool b => by simp [yeq]
  | .int n => by simp [yeq]
  | .str s => by simp [yeq]
  | .list xs => by simpa [yeq] using yeqList_refl xs
  | .map kvs => by simpa [yeq] using yeqPairs_refl kvs

theorem yeqList_refl : (xs : List YVal) → yeqList xs xs = true
  | [] => rfl
  | x :: xs => by simp [yeqList, yeq_refl x, yeqList_refl xs]

theorem yeqPairs_refl : (kvs : List (String × YVal)) → yeqPairs kvs kvs = true
  | [] => rfl
  | (k, v) :: kvs => by simp [yeqPairs, yeq_refl v, yeqPairs_refl kvs]
end

mutual
theorem yeq_sound : (a b : YVal) → yeq a b = true → a = b
  | .null, .null, _ => rfl
  | .bool a, .bool b, h => by simp [yeq] at h; simp [h]
  | .int a, .int b, h => by simp [yeq] at h; simp [h]
  | .str a, .str b, h => by simp [yeq] at h; simp [h]
  | .list a, .list b, h => by
    rw [yeqList_sound a b (by simpa [yeq] using h)]
  | .map a, .map b, h => by
    rw [yeqPairs_sound a b (by simpa [yeq] using h)]
  | .null, .bool _, h => nomatch h
  | .null, .int _, h => nomatch h
  | .null, .str _, h => nomatch h
  | .null, .list _, h => nomatch h
  | .null, .map _, h => nomatch h
  | .bool _, .null, h => nomatch h
  | .bool _, .int _, h => nomatch h
  | .bool _, .str _, h => nomatch h
  | .bool _, .list _, h => nomatch h
  | .bool _, .map _, h => nomatch h
  | .int _, .null, h => nomatch h
  | .int _, .bool _, h => nomatch h
  | .int _, .str _, h => nomatch h
  | .int _, .list _, h => nomatch h
  | .int _, .map _, h => nomatch h
  | .str _, .null, h => nomatch h
  | .str _, .bool _, h => nomatch h
  | .str _, .int _, h => nomatch h
  | .str _, .list _, h => nomatch h
  | .str _, .map _, h => nomatch h
  | .list _, .null, h => nomatch h
  | .list _, .bool _, h => nomatch h
  | .list _, .int _, h => nomatch h
  | .list _, .str _, h => nomatch h
  | .list _, .map _, h => nomatch h
  | .map _, .null, h => nomatch h
  | .map _, .bool _, h => nomatch h
  | .map _, .int _, h => nomatch h
  | .map _, .str _, h => nomatch h
  | .map _, .list _, h => nomatch h

theorem yeqList_sound : (xs ys : List YVal) → yeqList xs ys = true → xs = ys
  | [], [], _ => rfl
  | x :: xs, y :: ys, h => by
    have h' := h
    simp only [yeqList, Bool.and_eq_true] at h'
    rw [yeq_sound x y h'.1, yeqList_sound xs ys h'.2]
  | [], _ :: _, h => nomatch h
  | _ :: _, [], h => nomatch h

theorem yeqPairs_sound : (xs ys : List (String × YVal)) → yeqPairs xs ys = true → xs = ys
  | [], [], _ => rfl
  | (k, v) :: xs, (k', v') :: ys, h => by
    have h' := h
    simp only [yeqPairs, Bool.and_eq_true, beq_iff_eq] at h'
    rw [h'.1.1, yeq_sound v v' h'.1.2, yeqPairs_sound xs ys h'.2]
  | [], _ :: _, h => nomatch h
  | _ :: _, [], h => nomatch h
end

theorem yeq_iff (a b : YVal) : yeq a b = true ↔ a = b :=
  ⟨yeq_sound a b, fun h => h ▸ yeq_refl a⟩

instance : DecidableEq YVal := fun a b =>
  decidable_of_iff (yeq a b = true) (yeq_iff a b)

instance : BEq YVal := ⟨fun a b => yeq a b⟩

instance : LawfulBEq YVal where
  eq_of_beq h := (yeq_iff _ _).1 h
  rfl := (yeq_iff _ _).2 rfl

instance {ε α : Type} [DecidableEq ε] [DecidableEq α] : DecidableEq (Except ε α) :=
  fun a b =>
    match a, b with
    | .ok x, .ok y =>
      decidable_of_iff (x = y) (by constructor <;> intro h <;> simp_all)
    | .error x, .error y =>
      decidable_of_iff (x = y) (by constructor <;> intro h <;> simp_all)
    | .ok _, .error _ => isFalse (by intro h; cases h)
    | .error _, .ok _ => isFalse (by intro h; cases h)

@[simp] theorem exceptBind_ok {ε α β : Type} (a : α) (f : α → Except ε β) :
    (Except.ok a : Except ε α) >>= f = f a := rfl

@[simp] theorem exceptBind_error {ε α β : Type} (e : ε) (f : α → Except ε β) :
    (Except.error e : Except ε α) >>= f = .error e := rfl

@[simp] theorem exceptThrow_eq {ε α : Type} (e : ε) :
    (throw e : Except ε α) = .error e := rfl

@[simp] theorem exceptPure_eq {ε α : Type} (a : α) :
    (pure a : Except ε α) = .ok a := rfl

@[simp] theorem exceptMap_ok {ε α β : Type} (f : α → β) (a : α) :
    (f <$> (Except.ok a : Except ε α)) = .ok (f a) := rfl

@[simp] theorem exceptMap_error {ε α β : Type} (f : α → β) (e : ε) :
    (f <$> (Except.error e : Except ε α)) = .error e := rfl

@[simp] theorem exceptBindF_ok {ε α β : Type} (a : α) (f : α → Except ε β) :
    (Except.ok a : Except ε α).bind f = f a := rfl

@[simp] theorem exceptBindF_error {ε α β : Type} (e : ε) (f : α → Except ε β) :
    (Except.error e : Except ε α).bind f = .error e := rfl

theorem beq_yval (a b : YVal) : (a == b) = yeq a b := rfl

/-- Looks up a key in a YAML mapping (`dict` access; first matching key). -/
def mapGet (kvs : List (String × YVal)) (k : String) : Option YVal :=
  List.lookup k kvs

/-- Python truthiness of the result of `data.get(k)` (`None` when absent). -/
def getTruthy : Option YVal → Bool
  | some v => truthy v
  | none => false

/-- Digit run parser underlying the model of Python `int(str)`. -/
def parseDigits (cs : List Char) : Option Nat :=
  if cs.isEmpty then none
  else if cs.all Char.isDigit then
    some (cs.foldl (fun acc c => 10 * acc + (c.toNat - ('0').toNat)) 0)
  else none

/-- Model of Python `int(s)` on a string: strips surrounding whitespace, allows
an optional sign, then requires a base-10 digit run. -/
def pyIntOfStr (s : String) : Option Int :=
  let cs := ((s.data.dropWhile Char.isWhitespace).reverse.dropWhile Char.isWhitespace).reverse
  match cs with
  | '-' :: rest => (parseDigits rest).map (fun n => -(n : Int))
  | '+' :: rest => (parseDigits rest).map (fun n => (n : Int))
  | rest => (parseDigits rest).map (fun n => (n : Int))

/-- Validation-level errors raised by `FuzzTarget.from_dict`/`validate`
(all carried by `OrchestratorError` in the source). -/
inductive EntryErr where
  | missingFields (fields : List String)
  | envNotMapping (name : YVal)
  | badMaxRunSeconds (name : YVal) (got : Int)
  deriving DecidableEq

/-- Structured contents of every `OrchestratorError` the script raises. -/
inductive OrchErr where
  | entry (e : EntryErr)
  | configNotFound
  | rootNotMapping
  | noTargetsList
  | invalidConfig (errs : List (Nat × String × EntryErr))
  | noEnabledTargets
  | duplicateNames (names : List String)
  | helperFailed (args : List YVal) (code : Int)
  | targetFailed (name : YVal) (cause : OrchErr)
  deriving DecidableEq

/-- Python exceptions relevant to the orchestrator.  Only
`PyErr.orchestrator` (`OrchestratorError`) is caught by the script's
per-entry handler and by `main`; `yamlError` and `keyboardInterrupt` are
caught by `main` only; the remaining constructors model built-in exceptions
the script never catches. -/
inductive PyErr where
  | orchestrator (e : OrchErr)
  | yamlError
  | attributeError
  | typeError
  | valueError
  | indexError
  | keyError
  | keyboardInterrupt
  deriving DecidableEq

/-- Python `v[0]` (used for `binaries[0]`). -/
def pySubscript0 : YVal → Except PyErr YVal
  | .list [] => .error .indexError
  | .list (x :: _) => .ok x
  | .str s =>
    match s.data with
    | [] => .error .indexError
    | c :: _ => .ok (.str (String.mk [c]))
  | .map _ => .error .keyError
  | .null => .error .typeError
  | .bool _ => .error .typeError
  | .int _ => .error .typeError

/-- Python `v.get(k, d)` (raises `AttributeError` unless `v` is a mapping). -/
def pyGetD : YVal → String → YVal → Except PyErr YVal
  | .map kvs, k, d => .ok ((mapGet kvs k).getD d)
  | _, _, _ => .error .attributeError

/-- Python iteration over a value (`for x in v`): lists yield elements,
strings yield characters, mappings yield their keys. -/
def pyIter : YVal → Except PyErr (List YVal)
  | .list xs => .ok xs
  | .str s => .ok (s.data.map (fun c => .str (String.mk [c])))
  | .map kvs => .ok (kvs.map (fun p => YVal.str p.1))
  | .null => .error .typeError
  | .bool _ => .error .typeError
  | .int _ => .error .typeError

/-- Python `int(v)`. -/
def pyInt : YVal → Except PyErr Int
  | .int n => .ok n
  | .bool b => .ok (if b then 1 else 0)
  | .str s =>
    match pyIntOfStr s with
    | some n => .ok n
    | none => .error .valueError
  | .null => .error .typeError
  | .list _ => .error .typeError
  | .map _ => .error .typeError

/-- Python `Path(v)` for a truthy `v`: paths are modelled as their string. -/
def pathOf : YVal → Except PyErr String
  | .str s => .ok s
  | _ => .error .typeError

/-- The tuple `required = ("name", "project", "fuzz_target")`. -/
def requiredFields : List String := [("name"), ("project"), ("fuzz_target")]

/-- The list `[field for field in required if not data.get(field)]`. -/
def missingOf (kvs : List (String × YVal)) : List String :=
  requiredFields.filter (fun f => !(getTruthy (mapGet kvs f)))

/-- The validated, immutable representation of one fuzz target
(dataclass `FuzzTarget`).  Field values that the source stores unconverted
are kept as raw YAML values. -/
structure FuzzTarget where
  name : YVal
  project : YVal
  fuzz_target : YVal
  enabled : YVal := .bool true
  sanitizer : YVal := .str ("address")
  dictionary : Option String := none
  environment : List (String × String) := []
  fuzzer_args : List String := []
  max_run_seconds : Int := 900
  deriving DecidableEq

/-- The value `binaries = data.get("binaries") or []`. -/
def binariesOf (kvs : List (String × YVal)) : YVal :=
  let raw := (mapGet kvs ("binaries")).getD .null
  if truthy raw then raw else .list []

/-- The value `binaries[0].get("max_run_seconds", 900) if binaries else 900`. -/
def defaultRunSecondsOf (kvs : List (String × YVal)) : Except PyErr YVal :=
  if truthy (binariesOf kvs) then
    match pySubscript0 (binariesOf kvs) with
    | .ok b0 => pyGetD b0 ("max_run_seconds") (.int 900)
    | .error e => .error e
  else .ok (.int 900)

/-- The value `binaries[0].get("args", []) if binaries else []`. -/
def defaultArgsRawOf (kvs : List (String × YVal)) : Except PyErr YVal :=
  if truthy (binariesOf kvs) then
    match pySubscript0 (binariesOf kvs) with
    | .ok b0 => pyGetD b0 ("args") (.list [])
    | .error e => .error e
  else .ok (.list [])

/-- The value `Path(dictionary) if dictionary else None`. -/
def dictionaryPathOf (kvs : List (String × YVal)) : Except PyErr (Option String) :=
  let dictionary := (mapGet kvs ("dictionary")).getD .null
  if truthy dictionary then
    match pathOf dictionary with
    | .ok p => Except.ok (some p)
    | .error e => .error e
  else .ok none

/-- The value `data.get("environment", \x7b\x7d) or \x7b\x7d`, checked to be a
mapping (`OrchestratorError` otherwise). -/
def environmentPairsOf (kvs : List (String × YVal)) :
    Except PyErr (List (String × YVal)) :=
  let defaulted := (mapGet kvs ("environment")).getD (.map [])
  match (if truthy defaulted then defaulted else .map []) with
  | .map pairs => .ok pairs
  | _ =>
    .error (.orchestrator (.entry (.envNotMapping ((mapGet kvs ("name")).getD .null))))

/-- Model of `FuzzTarget.from_dict`, line for line: the required-field check,
the `binaries` first-element defaults, dictionary path, environment mapping
check and conversion, and the final field assembly with `int(...)` last.
A non-mapping argument raises `AttributeError` (from `data.get`). -/
def FuzzTarget.from_dict (data : YVal) : Except PyErr FuzzTarget :=
  match data with
  | .map kvs =>
    if (missingOf kvs).isEmpty = false then
      .error (.orchestrator (.entry (.missingFields (missingOf kvs))))
    else
      match defaultRunSecondsOf kvs with
      | .error e => .error e
      | .ok defaultRunSeconds =>
        match defaultArgsRawOf kvs with
        | .error e => .error e
        | .ok defaultArgsRaw =>
          match pyIter defaultArgsRaw with
          | .error e => .error e
          | .ok defaultArgsItems =>
            match dictionaryPathOf kvs with
            | .error e => .error e
            | .ok dictionary_path =>
              match environmentPairsOf kvs with
              | .error e => .error e
              | .ok envPairs =>
                match pyInt ((mapGet kvs ("max_run_seconds")).getD defaultRunSeconds) with
                | .error e => .error e
                | .ok mrs =>
                  .ok {
                    name := (mapGet kvs ("name")).getD .null
                    project := (mapGet kvs ("project")).getD .null
                    fuzz_target := (mapGet kvs ("fuzz_target")).getD .null
                    enabled := (mapGet kvs ("enabled")).getD (.bool true)
                    sanitizer := (mapGet kvs ("sanitizer")).getD (.str ("address"))
                    dictionary := dictionary_path
                    environment := envPairs.map (fun p => (p.1, pyStr p.2))
                    fuzzer_args := defaultArgsItems.map pyStr
                    max_run_seconds := mrs
                  }
  | _ => .error .attributeError

/-- Model of `FuzzTarget.validate`: rejects `max_run_seconds <= 0`; a
dictionary path that does not exist is cleared (with a warning) rather than
rejected.  `dictExists` abstracts the filesystem query `Path.exists`. -/
def FuzzTarget.validate (dictExists : String → Bool) (t : FuzzTarget) :
    Except PyErr FuzzTarget :=
  if t.max_run_seconds ≤ 0 then
    .error (.orchestrator (.entry (.badMaxRunSeconds t.name t.max_run_seconds)))
  else
    match t.dictionary with
    | some p => if dictExists p then .ok t else .ok { t with dictionary := none }
    | none => .ok t

/-- Model of `FuzzTarget.build_args`. -/
def FuzzTarget.build_args (t : FuzzTarget) : List YVal :=
  [.str ("build_fuzzers"), .str (("--sanitizer=") ++ pyStr t.sanitizer), t.project]

/-- Model of `FuzzTarget.run_args`: starts from the fixed prefix, extends with
`--dict <path>` when a dictionary is set, then the positional
project/fuzz-target pair, then `-- <fuzzerArgs...>` when fuzzer args exist. -/
def FuzzTarget.run_args (t : FuzzTarget) : List YVal :=
  let args := [YVal.str ("run_fuzzer"),
    .str (("--sanitizer=") ++ pyStr t.sanitizer),
    .str (("--max_total_time=") ++ pyStr (.int t.max_run_seconds))]
  let args := args ++ (match t.dictionary with
    | some p => [YVal.str ("--dict"), .str p]
    | none => [])
  let args := args ++ [t.project, t.fuzz_target]
  let args := args ++ (if t.fuzzer_args.isEmpty then []
    else YVal.str ("--") :: t.fuzzer_args.map YVal.str)
  args

/-- The per-entry annotation `entry.get("name") if isinstance(entry, dict) else
"<invalid>"`, rendered as the f-string renders it. -/
def entryLabel : YVal → String
  | .map kvs => pyStr ((mapGet kvs ("name")).getD .null)
  | _ => ("<invalid>")

/-- One entry's parse-then-validate pipeline (`FuzzTarget.from_dict(entry)`
followed by `target.validate()`). -/
def entryOutcome (dictExists : String → Bool) (entry : YVal) : Except PyErr FuzzTarget :=
  (FuzzTarget.from_dict entry).bind (FuzzTarget.validate dictExists)

/-- The accumulation loop of `load_targets`: entries are enumerated from 1;
an `OrchestratorError` (which `from_dict`/`validate` raise only with
entry-level contents) is appended to the error list, any other exception
propagates uncaught. -/
def parseEntries (dictExists : String → Bool) :
    List YVal → Nat → List FuzzTarget → List (Nat × String × EntryErr) →
    Except PyErr (List FuzzTarget × List (Nat × String × EntryErr))
  | [], _, parsed, errs => .ok (parsed, errs)
  | entry :: rest, idx, parsed, errs =>
    match entryOutcome dictExists entry with
    | .ok t => parseEntries dictExists rest (idx + 1) (parsed ++ [t]) errs
    | .error (.orchestrator (.entry e)) =>
      parseEntries dictExists rest (idx + 1) parsed (errs ++ [(idx, entryLabel entry, e)])
    | .error e => .error e

/-- The seen/duplicates loop of `_ensure_unique_names` (duplicates form a
set: each duplicated name is recorded once). -/
def collectDuplicates : List FuzzTarget → List YVal → List YVal → List YVal
  | [], _, dups => dups
  | t :: ts, seen, dups =>
    if seen.contains t.name then
      collectDuplicates ts seen (if dups.contains t.name then dups else dups ++ [t.name])
    else
      collectDuplicates ts (seen ++ [t.name]) dups

def insertStr (s : String) : List String → List String
  | [] => [s]
  | x :: xs => if s ≤ x then s :: x :: xs else x :: insertStr s xs

/-- Python `sorted` on a list of strings. -/
def sortStr : List String → List String
  | [] => []
  | x :: xs => insertStr x (sortStr xs)

def allStrings : List YVal → Option (List String)
  | [] => some []
  | .str s :: xs => (allStrings xs).map (fun ss => s :: ss)
  | _ :: _ => none

/-- Model of `_ensure_unique_names`: collects duplicated names and reports
them sorted and joined.  `sorted`/`", ".join` over non-string name values
raises `TypeError`, which the script does not catch. -/
def ensure_unique_names (ts : List FuzzTarget) : Except PyErr Unit :=
  let dups := collectDuplicates ts [] []
  if dups.isEmpty then .ok ()
  else
    match allStrings dups with
    | some names => .error (.orchestrator (.duplicateNames (sortStr names)))
    | none => .error .typeError

/-- Model of `load_targets`.  `configExists` abstracts `config_path.exists()`
and `yamlResult` abstracts `yaml.safe_load` (its parse failure is
`PyErr.yamlError`). -/
def load_targets (configExists : Bool) (yamlResult : Except PyErr YVal)
    (dictExists : String → Bool) : Except PyErr (List FuzzTarget) :=
  if configExists = false then
    .error (.orchestrator .configNotFound)
  else
    match yamlResult with
    | .error e => .error e
    | .ok data =>
      match data with
      | .map kvs =>
        match mapGet kvs ("targets") with
        | some (.list entries) =>
          match parseEntries dictExists entries 1 [] [] with
          | .error e => .error e
          | .ok (parsed, errs) =>
            if errs.isEmpty = false then
              .error (.orchestrator (.invalidConfig errs))
            else
              let enabledTargets := parsed.filter (fun t => truthy t.enabled)
              if enabledTargets.isEmpty then
                .error (.orchestrator .noEnabledTargets)
              else
                match ensure_unique_names enabledTargets with
                | .ok _ => .ok enabledTargets
                | .error e => .error e
        | _ => .error (.orchestrator .noTargetsList)
      | _ => .error (.orchestrator .rootNotMapping)

/-- Environment mappings (`Dict[str, str]`), as insertion-ordered
association lists with unique keys. -/
abbrev EnvMap := List (String × String)

/-- Dictionary lookup on an environment mapping (`d.get(k)` / `k in d`). -/
def lookupEnv (k : String) : EnvMap → Option String
  | [] => none
  | (a, b) :: m => if k = a then some b else lookupEnv k m

/-- Python `d[k] = v`: overwrites in place, or appends a new key. -/
def dictSet (m : EnvMap) (k v : String) : EnvMap :=
  if (lookupEnv k m).isSome then
    m.map (fun p => if p.1 = k then (k, v) else p)
  else m ++ [(k, v)]

/-- Python `d.update(overrides)`. -/
def dictUpdate (m : EnvMap) (overrides : EnvMap) : EnvMap :=
  overrides.foldl (fun acc p => dictSet acc p.1 p.2) m

/-- Value-level model of `_merge_env` (`base.copy()` then `update`). -/
def merge_env (base : EnvMap) (overrides : EnvMap) : EnvMap :=
  dictUpdate base overrides

/-- A heap of environment dictionaries, for stating that merges copy rather
than mutate: references are indices, `readH` dereferences. -/
abbrev Heap := List EnvMap

def readH (h : Heap) (r : Nat) : EnvMap := h.getD r []

/-- Python `d.copy()`: allocates a fresh dictionary with the same contents. -/
def heapCopy (h : Heap) (r : Nat) : Heap × Nat := (h ++ [readH h r], h.length)

/-- Python `d.update(overrides)` on the dictionary behind reference `r`. -/
def heapUpdateRef (h : Heap) (r : Nat) (overrides : EnvMap) : Heap :=
  h.set r (dictUpdate (readH h r) overrides)

/-- Heap-level model of `_merge_env`: copy the base, update the copy. -/
def merge_env_heap (h : Heap) (base : Nat) (overrides : EnvMap) : Heap × Nat :=
  let hr := heapCopy h base
  (heapUpdateRef hr.1 hr.2 overrides, hr.2)

/-- The well-known variables injected by `run_targets.execute` for the run
phase (values are the rendered field values; `ARTIFACT_DIR` is
`str(artifacts / target.name)`). -/
def injectedVars (t : FuzzTarget) (artifacts : String) : EnvMap :=
  [(("FUZZ_TARGET"), pyStr t.fuzz_target),
   (("FUZZ_PROJECT"), pyStr t.project),
   (("SANITIZER"), pyStr t.sanitizer),
   (("ARTIFACT_DIR"), artifacts ++ ("/") ++ pyStr t.name)]

/-- Heap-level model of the run-phase environment construction:
`env = _merge_env(base_env, target.environment)` then `env.update({...})`. -/
def run_env_heap (h : Heap) (base : Nat) (t : FuzzTarget) (artifacts : String) :
    Heap × Nat :=
  let hr := merge_env_heap h base t.environment
  (heapUpdateRef hr.1 hr.2 (injectedVars t artifacts), hr.2)

/-- Heap-level model of the build-phase environment construction
(`_merge_env` only; nothing is injected for builds). -/
def build_env_heap (h : Heap) (base : Nat) (t : FuzzTarget) : Heap × Nat :=
  merge_env_heap h base t.environment

/-- One recorded helper invocation of the build phase. -/
structure BuildInvocation where
  project : YVal
  sanitizer : YVal
  args : List YVal
  env : EnvMap
  targetName : YVal
  deriving DecidableEq

/-- The deduplication key `(target.project, target.sanitizer)`. -/
def buildKey (t : FuzzTarget) : YVal × YVal := (t.project, t.sanitizer)

def mkBuildInvocation (base : EnvMap) (t : FuzzTarget) : BuildInvocation :=
  ⟨t.project, t.sanitizer, t.build_args, merge_env base t.environment, t.name⟩

/-- The loop of `build_projects`: sequential, skipping keys already built,
stopping at the first failing helper invocation (`run_helper` raises).
`exitOf` abstracts the helper's exit status for a given argument list;
the returned list records the invocations that were performed. -/
def build_projects_go (exitOf : List YVal → Int) (base : EnvMap) :
    List FuzzTarget → List (YVal × YVal) → List BuildInvocation →
    List BuildInvocation × Option OrchErr
  | [], _, acc => (acc, none)
  | t :: ts, built, acc =>
    if built.contains (buildKey t) then build_projects_go exitOf base ts built acc
    else
      let inv := mkBuildInvocation base t
      let code := exitOf inv.args
      if code ≠ 0 then (acc ++ [inv], some (.helperFailed inv.args code))
      else build_projects_go exitOf base ts (built ++ [buildKey t]) (acc ++ [inv])

/-- Model of `build_projects`. -/
def build_projects (exitOf : List YVal → Int) (targets : List FuzzTarget)
    (base : EnvMap) : List BuildInvocation × Option OrchErr :=
  build_projects_go exitOf base targets [] []

/-- Outcome of the run scheduler: the first-encountered failure (target
index, target name, exit code) if any, the indices whose run invocation was
started, and the indices cancelled before starting. -/
structure RunReport where
  failed : Option (Nat × YVal × Int)
  started : List Nat
  cancelled : List Nat
  deriving DecidableEq

def nameAt (targets : List FuzzTarget) (i : Nat) : YVal :=
  match targets.get? i with
  | some t => t.name
  | none => .null

/-- The completion loop of `run_targets`: tasks are submitted in list order
and started by the pool in submission order; `sched` resolves which running
task completes next (the nondeterminism of `as_completed`); a completed
task with nonzero exit raises, upon which every not-yet-started task is
cancelled and never starts; a successful completion lets the pool start the
next queued task.  `fuel` bounds the number of completions (one per target
suffices). -/
def runLoop (exitOf : Nat → Int) (targets : List FuzzTarget) (n : Nat) :
    Nat → List Nat → List Nat → List Nat → Nat → RunReport
  | 0, _, _, started, _ => ⟨none, started, []⟩
  | _ + 1, _, [], started, _ => ⟨none, started, []⟩
  | fuel + 1, sched, q :: qs, started, nextIdx =>
    let running := q :: qs
    let pick := (sched.headD 0) % running.length
    let i := running.getD pick 0
    let code := exitOf i
    if code ≠ 0 then
      ⟨some (i, nameAt targets i, code), started, List.range' nextIdx (n - nextIdx)⟩
    else
      let running' := running.erase i
      if nextIdx < n then
        runLoop exitOf targets n fuel sched.tail (running' ++ [nextIdx])
          (started ++ [nextIdx]) (nextIdx + 1)
      else
        runLoop exitOf targets n fuel sched.tail running' started nextIdx

/-- The bound `max(1, min(max_parallel, len(targets)))`. -/
def worker_count (maxParallel : Int) (n : Nat) : Nat :=
  (max 1 (min maxParallel (n : Int))).toNat

/-- Model of `run_targets`: a pool of `worker_count` workers over the target
list; initially the first `min(workers, n)` targets start. -/
def run_targets (exitOf : Nat → Int) (schedule : List Nat)
    (targets : List FuzzTarget) (maxParallel : Int) : RunReport :=
  let n := targets.length
  let k := min (worker_count maxParallel n) n
  runLoop exitOf targets n n schedule (List.range k) (List.range k) k

/-- The `OrchestratorError` raised by `run_targets` for the first failing
target: `Target <name> failed: Helper command <run args> failed (exit <code>)`. -/
def run_phase_error (targets : List FuzzTarget) (i : Nat) (code : Int) : OrchErr :=
  .targetFailed (nameAt targets i)
    (.helperFailed (match targets.get? i with
      | some t => t.run_args
      | none => []) code)

/-- The external world `main` runs against. -/
structure OrchWorld where
  helperExists : Bool
  configExists : Bool
  yamlResult : Except PyErr YVal
  dictExists : String → Bool
  baseEnv : EnvMap
  buildExit : List YVal → Int
  runExit : Nat → Int
  schedule : List Nat
  maxParallel : Int
  interrupted : Bool

/-- The body of `main`'s `try` block: load, build, run; a user interrupt
surfaces as `KeyboardInterrupt` from within the block. -/
def orchestrate (w : OrchWorld) : Except PyErr Unit :=
  if w.interrupted = true then .error PyErr.keyboardInterrupt
  else
    match load_targets w.configExists w.yamlResult w.dictExists with
    | .error e => .error e
    | .ok targets =>
      match (build_projects w.buildExit targets w.baseEnv).2 with
      | some e => .error (.orchestrator e)
      | none =>
        match (run_targets w.runExit w.schedule targets w.maxParallel).failed with
        | some f => .error (.orchestrator (run_phase_error targets f.1 f.2.2))
        | none => .ok ()

/-- Model of `main`: missing helper returns 1 before the `try` block;
`OrchestratorError` and `yaml.YAMLError` yield 1, `KeyboardInterrupt`
yields 130; any other exception escapes `main` uncaught. -/
def main_model (w : OrchWorld) : Except PyErr Nat :=
  if w.helperExists = false then .ok 1
  else
    match orchestrate w with
    | .ok _ => .ok 0
    | .error (.orchestrator _) => .ok 1
    | .error .yamlError => .ok 1
    | .error .keyboardInterrupt => .ok 130
    | .error e => .error e

/-- The process exit status: `sys.exit(main(...))`, with an exception that
escapes `main` making the interpreter exit with status 1. -/
def processExit (w : OrchWorld) : Nat :=
  match main_model w with
  | .ok n => n
  | .error _ => 1

/-! Helper lemmas about `FuzzTarget.from_dict`. -/

theorem from_dict_ok_parts (kvs : List (String × YVal)) (t : FuzzTarget)
    (h : FuzzTarget.from_dict (.map kvs) = .ok t) :
    ∃ dRS, defaultRunSecondsOf kvs = .ok dRS ∧
      pyInt ((mapGet kvs ("max_run_seconds")).getD dRS) = .ok t.max_run_seconds := by
  simp only [FuzzTarget.from_dict] at h
  split at h
  · exact absurd h (by simp)
  cases hdRS : defaultRunSecondsOf kvs with
  | error e => simp [hdRS] at h
  | ok dRS =>
    simp only [hdRS] at h
    cases hdA : defaultArgsRawOf kvs with
    | error e => simp [hdA] at h
    | ok dA =>
      simp only [hdA] at h
      cases hIt : pyIter dA with
      | error e => simp [hIt] at h
      | ok items =>
        simp only [hIt] at h
        cases hDp : dictionaryPathOf kvs with
        | error e => simp [hDp] at h
        | ok dp =>
          simp only [hDp] at h
          cases hEnv : environmentPairsOf kvs with
          | error e => simp [hEnv] at h
          | ok envPairs =>
            simp only [hEnv] at h
            cases hMrs : pyInt ((mapGet kvs ("max_run_seconds")).getD dRS) with
            | error e => simp [hMrs] at h
            | ok mrs =>
              simp only [hMrs] at h
              injection h with h'
              exact ⟨dRS, rfl, by rw [← h']; exact hMrs⟩

/-- Claim C7: for every target, the run command line is exactly
`run_fuzzer --sanitizer=<s> --max_total_time=<maxRunSeconds> [--dict <path>]
<project> <fuzzTarget> [-- <fuzzerArgs...>]`, where the `--dict` option
appears iff the target's dictionary is set (which is its state after
validation), and the `--` separator followed by the fuzzer args appears iff
`fuzzerArgs` is non-empty. -/
theorem run_args_is_specified_command_line (t : FuzzTarget) :
    t.run_args =
      [YVal.str ("run_fuzzer"),
        YVal.str (("--sanitizer=") ++ pyStr t.sanitizer),
        YVal.str (("--max_total_time=") ++ pyStr (.int t.max_run_seconds))] ++
      (if h : t.dictionary.isSome then
        [YVal.str ("--dict"), YVal.str (t.dictionary.get h)]
       else []) ++
      [t.project, t.fuzz_target] ++
      (if t.fuzzer_args = [] then []
       else YVal.str ("--") :: t.fuzzer_args.map YVal.str) := by
  unfold FuzzTarget.run_args
  cases hd : t.dictionary <;> cases hf : t.fuzzer_args <;> simp [hd, hf]

/-- Claim C6: `maxRunSeconds` is the entry's explicit `max_run_seconds` field
if present, else the first `binaries` element's `max_run_seconds` hint if
present, else 900; and `validate` rejects every target whose
`maxRunSeconds` is at most 0. -/
theorem maxRunSeconds_derivation_and_validation (kvs : List (String × YVal))
    (t : FuzzTarget) (h : FuzzTarget.from_dict (.map kvs) = .ok t) :
    (∀ k : Int, mapGet kvs ("max_run_seconds") = some (.int k) →
      t.max_run_seconds = k) ∧
    (mapGet kvs ("max_run_seconds") = none →
      ∀ bkvs rest, mapGet kvs ("binaries") = some (.list (.map bkvs :: rest)) →
        ((∀ k : Int, mapGet bkvs ("max_run_seconds") = some (.int k) →
            t.max_run_seconds = k) ∧
         (mapGet bkvs ("max_run_seconds") = none → t.max_run_seconds = 900))) ∧
    (mapGet kvs ("max_run_seconds") = none → mapGet kvs ("binaries") = none →
      t.max_run_seconds = 900) ∧
    (∀ (d : String → Bool) (u : FuzzTarget), u.max_run_seconds ≤ 0 →
      FuzzTarget.validate d u =
        .error (.orchestrator (.entry (.badMaxRunSeconds u.name u.max_run_seconds)))) := by
  obtain ⟨dRS, hd, hp⟩ := from_dict_ok_parts kvs t h
  refine ⟨?_, ?_, ?_, ?_⟩
  · intro k hk
    rw [hk] at hp
    simp [pyInt] at hp
    exact hp.symm
  · intro habs bkvs rest hbin
    rw [habs] at hp
    have hd' : dRS = (mapGet bkvs ("max_run_seconds")).getD (.int 900) := by
      simp [defaultRunSecondsOf, binariesOf, hbin, truthy, pySubscript0, pyGetD] at hd
      exact hd.symm
    constructor
    · intro k hk2
      rw [hd', hk2] at hp
      simp [pyInt] at hp
      exact hp.symm
    · intro hnone
      rw [hd', hnone] at hp
      simp [pyInt] at hp
      exact hp.symm
  · intro habs hb
    have hd' : dRS = .int 900 := by
      simp [defaultRunSecondsOf, binariesOf, hb, truthy] at hd
      exact hd.symm
    rw [habs, hd'] at hp
    simp [pyInt] at hp
    exact hp.symm
  · intro d u hle
    simp [FuzzTarget.validate, hle]

def kvsWithBinariesHint : List (String × YVal) :=
  [(("name"), .str ("a")), (("project"), .str ("p")), (("fuzz_target"), .str ("f")),
   (("binaries"), .list [.map [(("max_run_seconds"), .int 123)]])]

def targetWithBinariesHint : FuzzTarget := {
  name := .str ("a"), project := .str ("p"), fuzz_target := .str ("f"),
  max_run_seconds := 123 }

/-- Witness for `maxRunSeconds_derivation_and_validation`: a target whose
entry omits `max_run_seconds` but has a first-binary hint of 123. -/
theorem maxRunSeconds_derivation_witness :
    FuzzTarget.from_dict (.map kvsWithBinariesHint) = .ok targetWithBinariesHint ∧
    targetWithBinariesHint.max_run_seconds = 123 := by
  have h6 : FuzzTarget.from_dict (.map kvsWithBinariesHint) = .ok targetWithBinariesHint := by
    simp [FuzzTarget.from_dict, binariesOf, defaultRunSecondsOf, defaultArgsRawOf,
      dictionaryPathOf, environmentPairsOf, kvsWithBinariesHint, targetWithBinariesHint,
      mapGet, missingOf, requiredFields, getTruthy, truthy, pyInt, pyIter, pySubscript0,
      pyGetD, pathOf, List.lookup]
  refine ⟨h6, ?_⟩
  exact ((maxRunSeconds_derivation_and_validation kvsWithBinariesHint targetWithBinariesHint
    h6).2.1 rfl [(("max_run_seconds"), .int 123)] [] rfl).1 123 rfl

/-! Characterisation of the accumulation loop of `load_targets`. -/

/-- Whether one entry's parse/validate raises an exception the loop does not
catch (anything but `OrchestratorError`). -/
def entryCrashes (d : String → Bool) (entry : YVal) : Bool :=
  match entryOutcome d entry with
  | .ok _ => false
  | .error (.orchestrator (.entry _)) => false
  | .error _ => true

/-- The targets that parse and validate successfully, in order. -/
def parsedOf (d : String → Bool) : List YVal → List FuzzTarget
  | [] => []
  | e :: es =>
    match entryOutcome d e with
    | .ok t => t :: parsedOf d es
    | _ => parsedOf d es

/-- The accumulated per-entry errors, with their 1-based positions starting
at `idx` and their labels. -/
def errsOf (d : String → Bool) : List YVal → Nat → List (Nat × String × EntryErr)
  | [], _ => []
  | e :: es, idx =>
    match entryOutcome d e with
    | .error (.orchestrator (.entry err)) =>
      (idx, entryLabel e, err) :: errsOf d es (idx + 1)
    | _ => errsOf d es (idx + 1)

theorem parseEntries_no_crash (d : String → Bool) :
    ∀ (es : List YVal) (idx : Nat) (p0 : List FuzzTarget)
      (e0 : List (Nat × String × EntryErr)),
      (∀ e ∈ es, entryCrashes d e = false) →
      parseEntries d es idx p0 e0 =
        .ok (p0 ++ parsedOf d es, e0 ++ errsOf d es idx)
  | [], idx, p0, e0, _ => by simp [parseEntries, parsedOf, errsOf]
  | e :: es, idx, p0, e0, h => by
    have he : entryCrashes d e = false := h e (List.mem_cons_self e es)
    have hrest : ∀ e' ∈ es, entryCrashes d e' = false :=
      fun e' he' => h e' (List.mem_cons_of_mem e he')
    cases ho : entryOutcome d e with
    | ok t =>
      have ih := parseEntries_no_crash d es (idx + 1) (p0 ++ [t]) e0 hrest
      simp only [parseEntries, parsedOf, errsOf, ho]
      simpa using ih
    | error err =>
      cases err with
      | orchestrator oe =>
        cases oe with
        | entry ee =>
          have ih := parseEntries_no_crash d es (idx + 1) p0
            (e0 ++ [(idx, entryLabel e, ee)]) hrest
          simp only [parseEntries, parsedOf, errsOf, ho]
          simpa using ih
        | _ => simp [entryCrashes, ho] at he
      | _ => simp [entryCrashes, ho] at he

theorem errsOf_mem (d : String → Bool) :
    ∀ (es : List YVal) (idx i : Nat) (entry : YVal) (err : EntryErr),
      es.get? i = some entry →
      entryOutcome d entry = .error (.orchestrator (.entry err)) →
      (idx + i, entryLabel entry, err) ∈ errsOf d es idx
  | [], _, i, _, _, hg, _ => by simp at hg
  | e :: es, idx, 0, entry, err, hg, ho => by
    simp at hg
    subst hg
    simp [errsOf, ho]
  | e :: es, idx, i + 1, entry, err, hg, ho => by
    simp only [List.get?] at hg
    have ih := errsOf_mem d es (idx + 1) i entry err hg ho
    have harith : idx + 1 + i = idx + (i + 1) := by omega
    rw [harith] at ih
    cases hoe : entryOutcome d e with
    | ok t => simpa [errsOf, hoe] using ih
    | error e' =>
      cases e' with
      | orchestrator oe =>
        cases oe with
        | entry ee =>
          simp [errsOf, hoe]
          exact ih
        | _ => simpa [errsOf, hoe] using ih
      | _ => simpa [errsOf, hoe] using ih

theorem errsOf_ne_nil_of_mem (d : String → Bool) (es : List YVal) (idx : Nat)
    (x : Nat × String × EntryErr) (hx : x ∈ errsOf d es idx) :
    (errsOf d es idx).isEmpty = false := by
  cases herr : errsOf d es idx with
  | nil => rw [herr] at hx; simp at hx
  | cons a l => simp

theorem from_dict_missing (kvs : List (String × YVal)) (h : missingOf kvs ≠ []) :
    FuzzTarget.from_dict (.map kvs) =
      .error (.orchestrator (.entry (.missingFields (missingOf kvs)))) := by
  have hne : (missingOf kvs).isEmpty = false := by
    cases hm : missingOf kvs with
    | nil => exact absurd hm h
    | cons a l => rfl
  simp [FuzzTarget.from_dict, hne]

theorem entryOutcome_missing (d : String → Bool) (kvs : List (String × YVal))
    (h : missingOf kvs ≠ []) :
    entryOutcome d (.map kvs) =
      .error (.orchestrator (.entry (.missingFields (missingOf kvs)))) := by
  simp [entryOutcome, from_dict_missing kvs h]

/-- Claim C4: an entry missing any of the required fields `name`, `project`,
`fuzz_target` (absent or empty) fails with one error naming every missing
field of that entry; and across a document whose entries are mappings (and
none of which hits an uncaught exception, cf. the C3 bug), the combined
error contains, for every offending entry, its position, label and the full
list of its missing fields. -/
theorem missing_required_fields_all_reported :
    (∀ kvs : List (String × YVal), missingOf kvs ≠ [] →
      (FuzzTarget.from_dict (.map kvs) =
          .error (.orchestrator (.entry (.missingFields (missingOf kvs)))) ∧
        ∀ f ∈ requiredFields,
          (mapGet kvs f = none ∨ mapGet kvs f = some (.str (""))) →
            f ∈ missingOf kvs)) ∧
    (∀ (d : String → Bool) (root : List (String × YVal)) (entries : List YVal),
      mapGet root ("targets") = some (.list entries) →
      (∀ e ∈ entries, entryCrashes d e = false) →
      (∃ i kvs, entries.get? i = some (.map kvs) ∧ missingOf kvs ≠ []) →
      ∃ errs,
        load_targets true (.ok (.map root)) d =
          .error (.orchestrator (.invalidConfig errs)) ∧
        ∀ i kvs, entries.get? i = some (.map kvs) → missingOf kvs ≠ [] →
          (i + 1, entryLabel (.map kvs), EntryErr.missingFields (missingOf kvs)) ∈ errs) := by
  constructor
  · intro kvs h
    refine ⟨from_dict_missing kvs h, ?_⟩
    intro f hf hval
    refine List.mem_filter.mpr ⟨hf, ?_⟩
    cases hval with
    | inl hnone => simp [getTruthy, hnone]
    | inr hempty => simp [getTruthy, hempty, truthy]
  · intro d root entries hdoc hcrash ⟨i0, kvs0, hg0, hm0⟩
    have hpe := parseEntries_no_crash d entries 1 [] [] hcrash
    have hmem0 := errsOf_mem d entries 1 i0 (.map kvs0)
      (EntryErr.missingFields (missingOf kvs0)) hg0 (entryOutcome_missing d kvs0 hm0)
    have hne := errsOf_ne_nil_of_mem d entries 1 _ hmem0
    refine ⟨errsOf d entries 1, ?_, ?_⟩
    · simp [load_targets, hdoc, hpe, hne]
    · intro i kvs hg hm
      have := errsOf_mem d entries 1 i (.map kvs)
        (EntryErr.missingFields (missingOf kvs)) hg (entryOutcome_missing d kvs hm)
      simpa [Nat.add_comm] using this

def entriesMissingFields : List YVal :=
  [.map [(("project"), .str ("p"))],
   .map [(("name"), .str ("ok")), (("project"), .str ("p")),
     (("fuzz_target"), .str ("f"))],
   .map [(("name"), .str ("x")), (("project"), .str ("")),
     (("fuzz_target"), .str ("f"))]]

def rootMissingFields : List (String × YVal) :=
  [(("targets"), .list entriesMissingFields)]

/-- Witness for `missing_required_fields_all_reported`: a document whose
first entry misses `name` and `fuzz_target` and whose third entry has an
empty `project`; both offending entries appear in the combined error with
all their missing fields. -/
theorem missing_required_fields_witness :
    ∃ errs, load_targets true (.ok (.map rootMissingFields)) (fun _ => true) =
        .error (.orchestrator (.invalidConfig errs)) ∧
      (1, ("None"), EntryErr.missingFields [("name"), ("fuzz_target")]) ∈ errs ∧
      (3, ("x"), EntryErr.missingFields [("project")]) ∈ errs := by
  obtain ⟨errs, hload, hmem⟩ :=
    missing_required_fields_all_reported.2 (fun _ => true) rootMissingFields
      entriesMissingFields rfl
      (by
        intro e he
        fin_cases he <;>
          simp [entryCrashes, entryOutcome, FuzzTarget.from_dict, binariesOf,
            defaultRunSecondsOf, defaultArgsRawOf, dictionaryPathOf,
            environmentPairsOf, FuzzTarget.validate, mapGet, missingOf,
            requiredFields, getTruthy, truthy, pyInt, pyIter, pySubscript0,
            pyGetD, pathOf, List.lookup])
      ⟨0, [(("project"), .str ("p"))], rfl, by decide⟩
  have h1 := hmem 0 [(("project"), .str ("p"))] rfl (by decide)
  have h3 := hmem 2 [(("name"), .str ("x")), (("project"), .str ("")),
    (("fuzz_target"), .str ("f"))] rfl (by decide)
  have hl1 : entryLabel (.map [(("project"), .str ("p"))]) = ("None") := by
    simp [entryLabel, mapGet, List.lookup, pyStr]
  have hl3 : entryLabel (.map [(("name"), .str ("x")), (("project"), .str ("")),
      (("fuzz_target"), .str ("f"))]) = ("x") := by
    simp [entryLabel, mapGet, List.lookup, pyStr]
  have hm1 : missingOf [(("project"), .str ("p"))] = [("name"), ("fuzz_target")] := by decide
  have hm3 : missingOf [(("name"), .str ("x")), (("project"), .str ("")),
      (("fuzz_target"), .str ("f"))] = [("project")] := by decide
  rw [hl1, hm1] at h1
  rw [hl3, hm3] at h3
  exact ⟨errs, hload, h1, h3⟩

/-- Claim C3 (code bug): `load_targets` catches only `OrchestratorError` per
entry, but `FuzzTarget.from_dict` on a non-mapping entry raises
`AttributeError` (`entry.get` on an `int`).  Loading a document whose first
entry is the integer `7` therefore crashes immediately instead of
accumulating `entry #1 (<invalid>)` together with the second entry's
missing-field error — even though the handler's own
`entry.get("name") if isinstance(entry, dict) else "<invalid>"` label shows
the accumulation was intended to cover non-mapping entries. -/
theorem non_mapping_entry_crashes_loading :
    load_targets true (.ok (.map [(("targets"), .list [.int 7, .map []])]))
      (fun _ => true) = .error .attributeError ∧
    missingOf ([] : List (String × YVal)) ≠ [] := by
  constructor
  · simp [load_targets, mapGet, parseEntries, entryOutcome, FuzzTarget.from_dict,
      List.lookup]
  · decide

theorem errsOf_nil_of_all_ok (d : String → Bool) :
    ∀ (es : List YVal) (idx : Nat),
      (∀ e ∈ es, ∃ t, entryOutcome d e = .ok t) → errsOf d es idx = []
  | [], _, _ => rfl
  | e :: es, idx, h => by
    obtain ⟨t, ht⟩ := h e (List.mem_cons_self e es)
    simp only [errsOf, ht]
    exact errsOf_nil_of_all_ok d es (idx + 1)
      (fun e' he' => h e' (List.mem_cons_of_mem e he'))

theorem entryCrashes_false_of_ok (d : String → Bool) (e : YVal)
    (h : ∃ t, entryOutcome d e = .ok t) : entryCrashes d e = false := by
  obtain ⟨t, ht⟩ := h
  simp [entryCrashes, ht]

/-- Claim C10: every entry is parsed and validated before the `enabled`
filter is applied.  First conjunct: an entry whose parse/validate fails
makes loading fail with the combined error containing that entry's record,
with no assumption on the entry's `enabled` value.  Second conjunct:
disabled entries are dropped (the result is the enabled filter of all
parsed targets) only when every entry validated successfully. -/
theorem entries_validated_before_enabled_filter :
    (∀ (d : String → Bool) (root : List (String × YVal)) (entries : List YVal)
      (i : Nat) (entry : YVal) (err : EntryErr),
      mapGet root ("targets") = some (.list entries) →
      (∀ e ∈ entries, entryCrashes d e = false) →
      entries.get? i = some entry →
      entryOutcome d entry = .error (.orchestrator (.entry err)) →
      ∃ errs, load_targets true (.ok (.map root)) d =
          .error (.orchestrator (.invalidConfig errs)) ∧
        (i + 1, entryLabel entry, err) ∈ errs) ∧
    (∀ (d : String → Bool) (root : List (String × YVal)) (entries : List YVal),
      mapGet root ("targets") = some (.list entries) →
      (∀ e ∈ entries, ∃ t, entryOutcome d e = .ok t) →
      ((parsedOf d entries).filter (fun t => truthy t.enabled)) ≠ [] →
      ensure_unique_names ((parsedOf d entries).filter (fun t => truthy t.enabled)) =
        .ok () →
      load_targets true (.ok (.map root)) d =
        .ok ((parsedOf d entries).filter (fun t => truthy t.enabled))) := by
  constructor
  · intro d root entries i entry err hdoc hcrash hget hout
    have hpe := parseEntries_no_crash d entries 1 [] [] hcrash
    have hmem := errsOf_mem d entries 1 i entry err hget hout
    have hne := errsOf_ne_nil_of_mem d entries 1 _ hmem
    refine ⟨errsOf d entries 1, ?_, ?_⟩
    · simp [load_targets, hdoc, hpe, hne]
    · simpa [Nat.add_comm] using hmem
  · intro d root entries hdoc hok hnonempty huniq
    have hcrash : ∀ e ∈ entries, entryCrashes d e = false :=
      fun e he => entryCrashes_false_of_ok d e (hok e he)
    have hpe := parseEntries_no_crash d entries 1 [] [] hcrash
    have herrs := errsOf_nil_of_all_ok d entries 1 hok
    have hfilterne : ((parsedOf d entries).filter
        (fun t => truthy t.enabled)).isEmpty = false := by
      cases hf : (parsedOf d entries).filter (fun t => truthy t.enabled) with
      | nil => exact absurd hf hnonempty
      | cons a l => rfl
    simp [load_targets, hdoc, hpe, herrs, hfilterne, huniq]

def entriesDisabledInvalid : List YVal :=
  [.map [(("name"), .str ("ok")), (("project"), .str ("p")),
     (("fuzz_target"), .str ("f"))],
   .map [(("name"), .str ("x")), (("project"), .str ("p")),
     (("fuzz_target"), .str ("f")), (("enabled"), .bool false),
     (("max_run_seconds"), .int 0)]]

/-- Witness for `entries_validated_before_enabled_filter`: the second entry
is disabled (`enabled: false`) yet its `max_run_seconds: 0` still aborts
loading with its validation error in the combined report. -/
theorem entries_validated_witness :
    ∃ errs, load_targets true
        (.ok (.map [(("targets"), .list entriesDisabledInvalid)])) (fun _ => true) =
        .error (.orchestrator (.invalidConfig errs)) ∧
      (2, ("x"), EntryErr.badMaxRunSeconds (.str ("x")) 0) ∈ errs := by
  obtain ⟨errs, hload, hmem⟩ :=
    entries_validated_before_enabled_filter.1 (fun _ => true)
      [(("targets"), .list entriesDisabledInvalid)] entriesDisabledInvalid
      1 (entriesDisabledInvalid.get ⟨1, by decide⟩)
      (EntryErr.badMaxRunSeconds (.str ("x")) 0)
      rfl
      (by
        intro e he
        fin_cases he <;>
          simp [entryCrashes, entryOutcome, FuzzTarget.from_dict, binariesOf,
            defaultRunSecondsOf, defaultArgsRawOf, dictionaryPathOf,
            environmentPairsOf, FuzzTarget.validate, mapGet, missingOf,
            requiredFields, getTruthy, truthy, pyInt, pyIter, pySubscript0,
            pyGetD, pathOf, List.lookup, entriesDisabledInvalid])
      (by rfl)
      (by
        simp [entryOutcome, FuzzTarget.from_dict, binariesOf,
          defaultRunSecondsOf, defaultArgsRawOf, dictionaryPathOf,
          environmentPairsOf, FuzzTarget.validate, mapGet, missingOf,
          requiredFields, getTruthy, truthy, pyInt, pyIter, pySubscript0,
          pyGetD, pathOf, List.lookup, entriesDisabledInvalid])
  refine ⟨errs, hload, ?_⟩
  have hl : entryLabel (entriesDisabledInvalid.get ⟨1, by decide⟩) = ("x") := by
    simp [entryLabel, entriesDisabledInvalid, mapGet, List.lookup, pyStr]
  rw [hl] at hmem
  exact hmem

theorem collectDuplicates_mem :
    ∀ (ts : List FuzzTarget) (seen dups : List YVal),
      (∀ x ∈ dups, x ∈ seen) →
      ∀ v, v ∈ collectDuplicates ts seen dups ↔
        (v ∈ dups ∨ (v ∈ seen ∧ v ∈ ts.map FuzzTarget.name) ∨
          2 ≤ (ts.map FuzzTarget.name).count v)
  | [], seen, dups, hsub, v => by simp [collectDuplicates]
  | t :: ts, seen, dups, hsub, v => by
    simp only [collectDuplicates]
    by_cases hseen : t.name ∈ seen
    · rw [if_pos (List.elem_iff.mpr hseen)]
      by_cases hd : t.name ∈ dups
      · rw [if_pos (List.elem_iff.mpr hd)]
        rw [collectDuplicates_mem ts seen dups hsub v]
        by_cases hv : v = t.name
        · subst hv
          simp [hseen, hd]
        · simp only [List.map_cons, List.mem_cons, List.count_cons_of_ne hv]
          simp [hv]
      · rw [if_neg (fun hc => hd (List.elem_iff.mp hc))]
        have hsub' : ∀ x ∈ dups ++ [t.name], x ∈ seen := by
          intro x hx
          rcases List.mem_append.mp hx with h | h
          · exact hsub x h
          · simp at h
            subst h
            exact hseen
        rw [collectDuplicates_mem ts seen (dups ++ [t.name]) hsub' v]
        by_cases hv : v = t.name
        · subst hv
          simp [hseen]
        · simp only [List.map_cons, List.mem_cons, List.count_cons_of_ne hv,
            List.mem_append, List.mem_singleton]
          simp [hv]
    · rw [if_neg (fun hc => hseen (List.elem_iff.mp hc))]
      have hsub' : ∀ x ∈ dups, x ∈ seen ++ [t.name] :=
        fun x hx => List.mem_append.mpr (Or.inl (hsub x hx))
      rw [collectDuplicates_mem ts (seen ++ [t.name]) dups hsub' v]
      by_cases hv : v = t.name
      · have hns : v ∉ seen := fun h => hseen (hv ▸ h)
        have hnd : v ∉ dups := fun h => hns (hsub v h)
        simp only [List.map_cons]
        rw [← hv]
        constructor
        · rintro (h | ⟨-, h2⟩ | hc)
          · exact absurd h hnd
          · refine Or.inr (Or.inr ?_)
            rw [List.count_cons_self]
            have := List.count_pos_iff.mpr h2
            omega
          · refine Or.inr (Or.inr ?_)
            rw [List.count_cons_self]
            omega
        · rintro (h | ⟨h1, -⟩ | hc)
          · exact absurd h hnd
          · exact absurd h1 hns
          · rw [List.count_cons_self] at hc
            have h2 : v ∈ ts.map FuzzTarget.name := List.count_pos_iff.mp (by omega)
            exact Or.inr (Or.inl
              ⟨List.mem_append.mpr (Or.inr (List.mem_singleton.mpr rfl)), h2⟩)
      · simp only [List.map_cons, List.mem_cons, List.count_cons_of_ne hv,
          List.mem_append, List.mem_singleton]
        simp [hv]

theorem allStrings_of_all_str :
    ∀ (l : List YVal), (∀ v ∈ l, ∃ s, v = YVal.str s) →
      ∃ ss, allStrings l = some ss ∧ ∀ s, s ∈ ss ↔ YVal.str s ∈ l
  | [], _ => ⟨[], rfl, by simp⟩
  | v :: l, h => by
    obtain ⟨s, hs⟩ := h v (List.mem_cons_self v l)
    subst hs
    obtain ⟨ss, hss, hmem⟩ :=
      allStrings_of_all_str l (fun w hw => h w (List.mem_cons_of_mem _ hw))
    refine ⟨s :: ss, by simp [allStrings, hss], ?_⟩
    intro s'
    simp [hmem s']

theorem insertStr_mem (x s : String) :
    ∀ l : List String, (s ∈ insertStr x l ↔ s = x ∨ s ∈ l)
  | [] => by simp [insertStr]
  | y :: l => by
    simp only [insertStr]
    split
    · simp
    · rw [List.mem_cons, insertStr_mem x s l, List.mem_cons]
      tauto

theorem sortStr_mem (s : String) :
    ∀ l : List String, (s ∈ sortStr l ↔ s ∈ l)
  | [] => by simp [sortStr]
  | x :: l => by
    simp only [sortStr]
    rw [insertStr_mem, sortStr_mem s l]
    simp

theorem ensure_unique_names_dup (ts : List FuzzTarget)
    (hnames : ∀ t ∈ ts, ∃ s, t.name = YVal.str s)
    (hdup : ∃ v, 2 ≤ (ts.map FuzzTarget.name).count v) :
    ∃ ds, ensure_unique_names ts = .error (.orchestrator (.duplicateNames ds)) ∧
      ∀ s, s ∈ ds ↔ 2 ≤ (ts.map FuzzTarget.name).count (.str s) := by
  have hchar := collectDuplicates_mem ts [] [] (by simp)
  have hchar' : ∀ v, v ∈ collectDuplicates ts [] [] ↔
      2 ≤ (ts.map FuzzTarget.name).count v := by
    intro v
    rw [hchar v]
    simp
  obtain ⟨v0, hv0⟩ := hdup
  have hv0mem : v0 ∈ collectDuplicates ts [] [] := (hchar' v0).mpr hv0
  have hne : (collectDuplicates ts [] []).isEmpty = false := by
    cases hc : collectDuplicates ts [] [] with
    | nil => rw [hc] at hv0mem; simp at hv0mem
    | cons a l => rfl
  have hallstr : ∀ v ∈ collectDuplicates ts [] [], ∃ s, v = YVal.str s := by
    intro v hv
    have h2 := (hchar' v).mp hv
    have hmem : v ∈ ts.map FuzzTarget.name := List.count_pos_iff.mp (by omega)
    obtain ⟨t, ht, hname⟩ := List.mem_map.mp hmem
    obtain ⟨s, hs⟩ := hnames t ht
    exact ⟨s, by rw [← hname, hs]⟩
  obtain ⟨ss, hss, hssmem⟩ := allStrings_of_all_str _ hallstr
  refine ⟨sortStr ss, ?_, ?_⟩
  · simp only [ensure_unique_names, hne, hss]
    simp
  · intro s
    rw [sortStr_mem, hssmem s, hchar']

/-- Claim C5: for every otherwise valid configuration (all entries parse
and validate; enabled names are strings, as `sorted`/`join` require) in
which two or more enabled targets share a name, loading fails with a
duplicate-names error whose name list contains exactly the names occurring
at least twice among the enabled targets. -/
theorem duplicate_enabled_names_all_reported
    (d : String → Bool) (root : List (String × YVal)) (entries : List YVal)
    (hdoc : mapGet root ("targets") = some (.list entries))
    (hok : ∀ e ∈ entries, ∃ t, entryOutcome d e = .ok t)
    (hnames : ∀ t ∈ (parsedOf d entries).filter (fun t => truthy t.enabled),
      ∃ s, t.name = YVal.str s)
    (hdup : ∃ v, 2 ≤ (((parsedOf d entries).filter
      (fun t => truthy t.enabled)).map FuzzTarget.name).count v) :
    ∃ ds, load_targets true (.ok (.map root)) d =
        .error (.orchestrator (.duplicateNames ds)) ∧
      ∀ s, s ∈ ds ↔ 2 ≤ (((parsedOf d entries).filter
        (fun t => truthy t.enabled)).map FuzzTarget.name).count (.str s) := by
  have hcrash : ∀ e ∈ entries, entryCrashes d e = false :=
    fun e he => entryCrashes_false_of_ok d e (hok e he)
  have hpe := parseEntries_no_crash d entries 1 [] [] hcrash
  have herrs := errsOf_nil_of_all_ok d entries 1 hok
  obtain ⟨ds, hens, hds⟩ := ensure_unique_names_dup
    ((parsedOf d entries).filter (fun t => truthy t.enabled)) hnames hdup
  obtain ⟨v0, hv0⟩ := hdup
  have hmem0 : v0 ∈ ((parsedOf d entries).filter
      (fun t => truthy t.enabled)).map FuzzTarget.name :=
    List.count_pos_iff.mp (by omega)
  have hfne : ((parsedOf d entries).filter
      (fun t => truthy t.enabled)).isEmpty = false := by
    cases hc : (parsedOf d entries).filter (fun t => truthy t.enabled) with
    | nil => rw [hc] at hmem0; simp at hmem0
    | cons a l => rfl
  refine ⟨ds, ?_, hds⟩
  simp [load_targets, hdoc, hpe, herrs, hfne, hens]

def entryDupA : YVal := .map [(("name"), .str ("a")), (("project"), .str ("p")),
  (("fuzz_target"), .str ("f"))]

def tDupA : FuzzTarget := {
  name := .str ("a"), project := .str ("p"), fuzz_target := .str ("f") }

/-- Witness for `duplicate_enabled_names_all_reported`: two enabled entries
named `a`. -/
theorem duplicate_names_witness :
    ∃ ds, load_targets true (.ok (.map [(("targets"), .list [entryDupA, entryDupA])]))
        (fun _ => true) = .error (.orchestrator (.duplicateNames ds)) ∧ ("a") ∈ ds := by
  have hout : entryOutcome (fun _ => true) entryDupA = .ok tDupA := by
    simp [entryOutcome, FuzzTarget.from_dict, binariesOf, defaultRunSecondsOf,
      defaultArgsRawOf, dictionaryPathOf, environmentPairsOf, FuzzTarget.validate,
      mapGet, missingOf, requiredFields, getTruthy, truthy, pyInt, pyIter,
      pySubscript0, pyGetD, pathOf, List.lookup, entryDupA, tDupA]
  have hparsed : (parsedOf (fun _ => true) [entryDupA, entryDupA]).filter
      (fun t => truthy t.enabled) = [tDupA, tDupA] := by
    simp [parsedOf, hout, tDupA, truthy]
  have hcount : (([tDupA, tDupA]).map FuzzTarget.name).count (YVal.str ("a")) = 2 := by
    simp [tDupA, List.count_cons, beq_yval, yeq]
  obtain ⟨ds, hload, hiff⟩ :=
    duplicate_enabled_names_all_reported (fun _ => true)
      [(("targets"), .list [entryDupA, entryDupA])] [entryDupA, entryDupA]
      rfl
      (by intro e he; fin_cases he <;> exact ⟨tDupA, hout⟩)
      (by rw [hparsed]; intro t ht; fin_cases ht <;> exact ⟨("a"), rfl⟩)
      ⟨.str ("a"), by rw [hparsed, hcount]⟩
  refine ⟨ds, hload, ?_⟩
  rw [hiff ("a"), hparsed, hcount]

/-- First-occurrence deduplication of a key list, excluding keys already in
`built` (the specification of build deduplication). -/
def dedupF : List (YVal × YVal) → List (YVal × YVal) → List (YVal × YVal)
  | _, [] => []
  | built, k :: ks =>
    if built.contains k then dedupF built ks
    else k :: dedupF (built ++ [k]) ks

/-- The targets whose build is actually invoked: the first target of each
distinct not-yet-built key, in list order. -/
def buildPlan : List (YVal × YVal) → List FuzzTarget → List FuzzTarget
  | _, [] => []
  | built, t :: ts =>
    if built.contains (buildKey t) then buildPlan built ts
    else t :: buildPlan (built ++ [buildKey t]) ts

theorem build_projects_go_ok (exitOf : List YVal → Int) (base : EnvMap) :
    ∀ (ts : List FuzzTarget) (built : List (YVal × YVal))
      (acc invsAcc : List BuildInvocation),
      build_projects_go exitOf base ts built acc = (invsAcc, none) →
      invsAcc = acc ++ (buildPlan built ts).map (mkBuildInvocation base)
  | [], built, acc, invsAcc, h => by
    simp [build_projects_go] at h
    simp [buildPlan, h]
  | t :: ts, built, acc, invsAcc, h => by
    simp only [build_projects_go, buildPlan] at h ⊢
    by_cases hb : built.contains (buildKey t)
    · rw [if_pos hb] at h ⊢
      exact build_projects_go_ok exitOf base ts built acc invsAcc h
    · rw [if_neg hb] at h ⊢
      by_cases hc : exitOf (mkBuildInvocation base t).args ≠ 0
      · rw [if_pos hc] at h
        simp at h
      · rw [if_neg hc] at h
        have := build_projects_go_ok exitOf base ts (built ++ [buildKey t])
          (acc ++ [mkBuildInvocation base t]) invsAcc h
        simp [this]

theorem buildPlan_keys :
    ∀ (built : List (YVal × YVal)) (ts : List FuzzTarget),
      (buildPlan built ts).map buildKey = dedupF built (ts.map buildKey)
  | _, [] => rfl
  | built, t :: ts => by
    simp only [buildPlan, List.map_cons, dedupF]
    by_cases hb : built.contains (buildKey t)
    · rw [if_pos hb, if_pos hb]
      exact buildPlan_keys built ts
    · rw [if_neg hb, if_neg hb]
      simp [buildPlan_keys (built ++ [buildKey t]) ts]

theorem buildPlan_first :
    ∀ (built : List (YVal × YVal)) (ts : List FuzzTarget) (t' : FuzzTarget),
      t' ∈ buildPlan built ts →
      buildKey t' ∉ built ∧
        ts.find? (fun u => buildKey u == buildKey t') = some t'
  | built, [], t', h => by simp [buildPlan] at h
  | built, t :: ts, t', h => by
    simp only [buildPlan] at h
    by_cases hb : built.contains (buildKey t)
    · rw [if_pos hb] at h
      obtain ⟨hnb, hfind⟩ := buildPlan_first built ts t' h
      refine ⟨hnb, ?_⟩
      have hne : (buildKey t == buildKey t') = false := by
        by_contra hcon
        simp at hcon
        exact hnb (by
          rw [← hcon]
          exact List.elem_iff.mp hb)
      rw [List.find?_cons_of_neg _ (by simp [hne])]
      exact hfind
    · rw [if_neg hb] at h
      rcases List.mem_cons.mp h with heq | hmem
      · subst heq
        refine ⟨fun hc => hb (List.elem_iff.mpr hc), ?_⟩
        rw [List.find?_cons_of_pos _ (by simp)]
      · obtain ⟨hnb, hfind⟩ := buildPlan_first (built ++ [buildKey t]) ts t' hmem
        have hne : buildKey t ≠ buildKey t' := by
          intro hcon
          exact hnb (List.mem_append.mpr (Or.inr (by simp [hcon])))
        refine ⟨fun hc => hnb (List.mem_append.mpr (Or.inl hc)), ?_⟩
        rw [List.find?_cons_of_neg _ (by simp [hne])]
        exact hfind

theorem dedupF_mem :
    ∀ (built ks : List (YVal × YVal)) (k : YVal × YVal),
      k ∈ dedupF built ks ↔ (k ∉ built ∧ k ∈ ks)
  | built, [], k => by simp [dedupF]
  | built, k0 :: ks, k => by
    simp only [dedupF]
    by_cases hb : built.contains k0
    · rw [if_pos hb]
      rw [dedupF_mem built ks k]
      by_cases hk : k = k0
      · subst hk
        simp [List.elem_iff.mp hb]
      · simp [hk]
    · rw [if_neg hb]
      by_cases hk : k = k0
      · subst hk
        have hnb : k ∉ built := fun hc => hb (List.elem_iff.mpr hc)
        simp [List.mem_cons, hnb]
      · simp only [List.mem_cons, hk, false_or]
        rw [dedupF_mem (built ++ [k0]) ks k]
        simp [hk]

theorem dedupF_nodup :
    ∀ (built ks : List (YVal × YVal)), (dedupF built ks).Nodup
  | built, [] => by simp [dedupF]
  | built, k0 :: ks => by
    simp only [dedupF]
    by_cases hb : built.contains k0
    · rw [if_pos hb]
      exact dedupF_nodup built ks
    · rw [if_neg hb]
      refine List.nodup_cons.mpr ⟨?_, dedupF_nodup (built ++ [k0]) ks⟩
      intro hc
      have := (dedupF_mem (built ++ [k0]) ks k0).mp hc
      exact this.1 (List.mem_append.mpr (Or.inr (by simp)))

theorem count_eq_one_of_nodup_mem {α : Type} [BEq α] [LawfulBEq α]
    {l : List α} {a : α} (hnd : l.Nodup) (ha : a ∈ l) : l.count a = 1 := by
  induction l with
  | nil => simp at ha
  | cons b l ih =>
    rcases List.mem_cons.mp ha with rfl | hmem
    · rw [List.count_cons_self]
      have hnotin : a ∉ l := (List.nodup_cons.mp hnd).1
      have hz : l.count a = 0 := by
        rw [List.count_eq_zero]
        exact hnotin
      omega
    · have hne : a ≠ b := by
        rintro rfl
        exact (List.nodup_cons.mp hnd).1 hmem
      rw [List.count_cons_of_ne hne]
      exact ih (List.nodup_cons.mp hnd).2 hmem

/-- Claim C2: a successful `buildAll` pass processes targets in their given
order and invokes the build command exactly once per distinct
`(project, sanitizer)` pair; a later target sharing an already-built key is
skipped even with different `environment` overrides, so every performed
invocation is the `mkBuildInvocation` of the *first* target carrying its
key (that target's merged build environment wins). -/
theorem buildAll_dedups_and_first_env_wins
    (exitOf : List YVal → Int) (base : EnvMap) (ts : List FuzzTarget)
    (invs : List BuildInvocation)
    (h : build_projects exitOf ts base = (invs, none)) :
    invs = (buildPlan [] ts).map (mkBuildInvocation base) ∧
    invs.map (fun i => (i.project, i.sanitizer)) = dedupF [] (ts.map buildKey) ∧
    (∀ k, (invs.map (fun i => (i.project, i.sanitizer))).count k =
      if k ∈ ts.map buildKey then 1 else 0) ∧
    (∀ i ∈ invs, ∃ t',
      ts.find? (fun u => buildKey u == (i.project, i.sanitizer)) = some t' ∧
      i = mkBuildInvocation base t' ∧ i.env = merge_env base t'.environment) := by
  have h1 : invs = (buildPlan [] ts).map (mkBuildInvocation base) := by
    have := build_projects_go_ok exitOf base ts [] [] invs
    simp [build_projects] at h
    simpa using this h
  have hkeys : invs.map (fun i => (i.project, i.sanitizer)) = dedupF [] (ts.map buildKey) := by
    rw [h1, List.map_map]
    have : ((fun i => (i.project, i.sanitizer)) ∘ mkBuildInvocation base) = buildKey := by
      funext u
      rfl
    rw [this]
    exact buildPlan_keys [] ts
  refine ⟨h1, hkeys, ?_, ?_⟩
  · intro k
    rw [hkeys]
    by_cases hk : k ∈ ts.map buildKey
    · rw [if_pos hk]
      have hmem : k ∈ dedupF [] (ts.map buildKey) := (dedupF_mem _ _ k).mpr ⟨by simp, hk⟩
      exact count_eq_one_of_nodup_mem (dedupF_nodup _ _) hmem
    · rw [if_neg hk]
      rw [List.count_eq_zero]
      intro hc
      exact hk ((dedupF_mem _ _ k).mp hc).2
  · intro i hi
    rw [h1] at hi
    obtain ⟨t', ht', hmk⟩ := List.mem_map.mp hi
    obtain ⟨hnb, hfind⟩ := buildPlan_first [] ts t' ht'
    refine ⟨t', ?_, hmk.symm, by rw [← hmk]; rfl⟩
    have : (i.project, i.sanitizer) = buildKey t' := by rw [← hmk]; rfl
    rw [this]
    exact hfind

theorem prodBeq_def (a b : YVal × YVal) :
    (a == b) = (a.1 == b.1 && a.2 == b.2) := rfl

def twA : FuzzTarget := {
  name := .str ("a"), project := .str ("p1"), fuzz_target := .str ("fa"),
  environment := [(("CFLAGS"), ("-O1"))] }

def twB : FuzzTarget := {
  name := .str ("b"), project := .str ("p1"), fuzz_target := .str ("fb"),
  environment := [(("CFLAGS"), ("-O2"))] }

def twC : FuzzTarget := {
  name := .str ("c"), project := .str ("p2"), fuzz_target := .str ("fc") }

/-- Witness for `buildAll_dedups_and_first_env_wins`: `twA` and `twB` share
the key `(p1, address)` with different environments; only `twA`'s build
runs, and `(p1, address)` is built exactly once. -/
theorem build_dedup_witness :
    build_projects (fun _ => 0) [twA, twB, twC] [] =
      ([mkBuildInvocation [] twA, mkBuildInvocation [] twC], none) ∧
    ([mkBuildInvocation [] twA, mkBuildInvocation [] twC].map
      (fun i => (i.project, i.sanitizer))).count (.str ("p1"), .str ("address")) = 1 ∧
    (∃ t', [twA, twB, twC].find?
        (fun u => buildKey u == (YVal.str ("p1"), YVal.str ("address"))) = some t' ∧
      mkBuildInvocation [] twA = mkBuildInvocation [] t') := by
  have h : build_projects (fun _ => 0) [twA, twB, twC] [] =
      ([mkBuildInvocation [] twA, mkBuildInvocation [] twC], none) := by
    simp [build_projects, build_projects_go, buildKey, twA, twB, twC,
      List.contains, List.elem, prodBeq_def, beq_yval, yeq, mkBuildInvocation]
  obtain ⟨h1, h2, h3, h4⟩ :=
    buildAll_dedups_and_first_env_wins (fun _ => 0) [] [twA, twB, twC]
      [mkBuildInvocation [] twA, mkBuildInvocation [] twC] h
  refine ⟨h, ?_, ?_⟩
  · have hkmem : ((YVal.str ("p1"), YVal.str ("address")) : YVal × YVal) ∈
        [twA, twB, twC].map buildKey := by
      simp [twA, twB, twC, buildKey]
    rw [h3 (.str ("p1"), .str ("address")), if_pos hkmem]
  · obtain ⟨t', hfind, hmk, henv⟩ :=
      h4 (mkBuildInvocation [] twA) (List.mem_cons_self _ _)
    exact ⟨t', hfind, hmk⟩

theorem listGetD_mem : ∀ (l : List Nat) (i : Nat), i < l.length → l.getD i 0 ∈ l
  | a :: l, 0, _ => List.mem_cons_self a l
  | a :: l, i + 1, h =>
    List.mem_cons_of_mem a (listGetD_mem l i (by simpa using h))

theorem runLoop_failed_characterised (exitOf : Nat → Int)
    (targets : List FuzzTarget) (n : Nat) :
    ∀ (fuel : Nat) (sched running : List Nat) (nextIdx : Nat),
      (∀ p ∈ running, p < nextIdx) →
      nextIdx ≤ n →
      ∀ i nm c,
        (runLoop exitOf targets n fuel sched running (List.range nextIdx) nextIdx).failed
          = some (i, nm, c) →
        c ≠ 0 ∧ exitOf i = c ∧ nm = nameAt targets i ∧
        ∃ k, k ≤ n ∧ i < k ∧
          (runLoop exitOf targets n fuel sched running (List.range nextIdx) nextIdx).started
            = List.range k ∧
          (runLoop exitOf targets n fuel sched running (List.range nextIdx) nextIdx).cancelled
            = List.range' k (n - k)
  | 0, sched, running, nextIdx, hrun, hle, i, nm, c, h => by
    simp [runLoop] at h
  | fuel + 1, sched, [], nextIdx, hrun, hle, i, nm, c, h => by
    simp [runLoop] at h
  | fuel + 1, sched, q :: qs, nextIdx, hrun, hle, i, nm, c, h => by
    have hplt : (sched.headD 0) % (q :: qs).length < (q :: qs).length :=
      Nat.mod_lt _ (by simp)
    have hpmem : (q :: qs).getD ((sched.headD 0) % (q :: qs).length) 0 ∈ q :: qs :=
      listGetD_mem _ _ hplt
    have hpn : (q :: qs).getD ((sched.headD 0) % (q :: qs).length) 0 < nextIdx :=
      hrun _ hpmem
    simp only [runLoop] at h ⊢
    by_cases hc : exitOf ((q :: qs).getD ((sched.headD 0) % (q :: qs).length) 0) ≠ 0
    · rw [if_pos hc] at h ⊢
      simp only [Option.some.injEq, Prod.mk.injEq] at h
      obtain ⟨hi, hnm, hcc⟩ := h
      subst hi
      refine ⟨by rw [← hcc]; exact hc, hcc, hnm.symm, nextIdx, hle, hpn, rfl, rfl⟩
    · rw [if_neg hc] at h ⊢
      by_cases hn : nextIdx < n
      · rw [if_pos hn] at h ⊢
        rw [← List.range_succ] at h ⊢
        refine runLoop_failed_characterised exitOf targets n fuel sched.tail
          ((q :: qs).erase ((q :: qs).getD ((sched.headD 0) % (q :: qs).length) 0)
            ++ [nextIdx])
          (nextIdx + 1) ?_ hn i nm c h
        intro x hx
        rcases List.mem_append.mp hx with hx' | hx'
        · exact Nat.lt_succ_of_lt (hrun x (List.mem_of_mem_erase hx'))
        · simp at hx'
          subst hx'
          exact Nat.lt_succ_self _
      · rw [if_neg hn] at h ⊢
        exact runLoop_failed_characterised exitOf targets n fuel sched.tail
          ((q :: qs).erase ((q :: qs).getD ((sched.headD 0) % (q :: qs).length) 0))
          nextIdx (fun x hx => hrun x (List.mem_of_mem_erase hx)) hle i nm c h

/-- Claim C1: when the run scheduler reports a failure, the reported target
is a real target that was started and whose run command exited with the
reported nonzero code; every task not yet started at the time of the
failure is cancelled (it never starts and is not part of the started set),
and the failing target is not one of the cancelled tasks (cancelled tasks
are not what the error reports). -/
theorem runAll_first_failure_cancels_pending
    (exitOf : Nat → Int) (schedule : List Nat) (targets : List FuzzTarget)
    (maxParallel : Int) (i : Nat) (nm : YVal) (c : Int)
    (h : (run_targets exitOf schedule targets maxParallel).failed = some (i, nm, c)) :
    c ≠ 0 ∧ exitOf i = c ∧
    (∃ t, targets[i]? = some t ∧ nm = t.name) ∧
    i ∈ (run_targets exitOf schedule targets maxParallel).started ∧
    i ∉ (run_targets exitOf schedule targets maxParallel).cancelled ∧
    (∀ j ∈ (run_targets exitOf schedule targets maxParallel).cancelled,
      j ∉ (run_targets exitOf schedule targets maxParallel).started ∧
      j < targets.length) := by
  simp only [run_targets] at h ⊢
  obtain ⟨hc0, hco, hnm, k, hkn, hik, hst, hcan⟩ :=
    runLoop_failed_characterised exitOf targets targets.length targets.length
      schedule
      (List.range (min (worker_count maxParallel targets.length) targets.length))
      (min (worker_count maxParallel targets.length) targets.length)
      (fun p hp => List.mem_range.mp hp)
      (Nat.min_le_right _ _) i nm c h
  have hilen : i < targets.length := Nat.lt_of_lt_of_le hik hkn
  have hget : targets[i]? = some (targets.get ⟨i, hilen⟩) := by
    rw [List.getElem?_eq_getElem hilen]
    rfl
  refine ⟨hc0, hco, ⟨targets.get ⟨i, hilen⟩, hget, ?_⟩, ?_, ?_, ?_⟩
  · rw [hnm]
    simp [nameAt, hget]
  · rw [hst]
    exact List.mem_range.mpr hik
  · rw [hcan]
    intro hmem
    have := (List.mem_range'_1.mp hmem).1
    omega
  · intro j hj
    rw [hcan] at hj
    obtain ⟨hj1, hj2⟩ := List.mem_range'_1.mp hj
    constructor
    · rw [hst]
      intro hmem
      have := List.mem_range.mp hmem
      omega
    · omega

/-- Witness for `runAll_first_failure_cancels_pending`: with one worker and
target 0 exiting with code 2, targets 1 and 2 are cancelled unstarted. -/
theorem run_failure_witness :
    (run_targets (fun j => if j = 0 then 2 else 0) [] [twA, twB, twC] 1).failed
      = some (0, .str ("a"), 2) ∧
    (2 : Int) ≠ 0 ∧
    (∃ t, [twA, twB, twC][0]? = some t ∧ YVal.str ("a") = t.name) ∧
    0 ∈ (run_targets (fun j => if j = 0 then 2 else 0) [] [twA, twB, twC] 1).started ∧
    0 ∉ (run_targets (fun j => if j = 0 then 2 else 0) [] [twA, twB, twC] 1).cancelled ∧
    (∀ j ∈ (run_targets (fun j => if j = 0 then 2 else 0) [] [twA, twB, twC] 1).cancelled,
      j ∉ (run_targets (fun j => if j = 0 then 2 else 0) [] [twA, twB, twC] 1).started) := by
  have h : (run_targets (fun j => if j = 0 then 2 else 0) [] [twA, twB, twC] 1).failed
      = some (0, .str ("a"), 2) := by
    simp [run_targets, runLoop, worker_count, nameAt, twA, List.range, List.range.loop]
  obtain ⟨h1, h2, h3, h4, h5, h6⟩ :=
    runAll_first_failure_cancels_pending (fun j => if j = 0 then 2 else 0) []
      [twA, twB, twC] 1 0 (.str ("a")) 2 h
  exact ⟨h, h1, h3, h4, h5, fun j hj => (h6 j hj).1⟩

theorem lookupEnv_append (k : String) :
    ∀ l1 l2 : EnvMap, lookupEnv k (l1 ++ l2) =
      (match lookupEnv k l1 with
        | some v => some v
        | none => lookupEnv k l2)
  | [], l2 => rfl
  | (a, b) :: l1, l2 => by
    simp only [List.cons_append, lookupEnv]
    by_cases hk : k = a
    · simp [hk]
    · simp only [if_neg hk]
      exact lookupEnv_append k l1 l2

theorem lookupEnv_map_replace_ne (k v k' : String) (h : k' ≠ k) :
    ∀ m : EnvMap,
      lookupEnv k' (m.map (fun p => if p.1 = k then (k, v) else p)) = lookupEnv k' m
  | [] => rfl
  | (a, b) :: m => by
    by_cases ha : a = k
    · have hhead : ((if (a, b).1 = k then (k, v) else (a, b)) : String × String) = (k, v) := by
        simp [ha]
      rw [List.map_cons, hhead]
      simp only [lookupEnv]
      rw [if_neg h, if_neg (fun hx : k' = a => h (hx.trans ha))]
      exact lookupEnv_map_replace_ne k v k' h m
    · have hhead : ((if (a, b).1 = k then (k, v) else (a, b)) : String × String) = (a, b) := by
        simp [ha]
      rw [List.map_cons, hhead]
      simp only [lookupEnv]
      by_cases hk : k' = a
      · rw [if_pos hk, if_pos hk]
      · rw [if_neg hk, if_neg hk]
        exact lookupEnv_map_replace_ne k v k' h m

theorem lookupEnv_map_replace_eq (k v : String) :
    ∀ m : EnvMap, (lookupEnv k m).isSome = true →
      lookupEnv k (m.map (fun p => if p.1 = k then (k, v) else p)) = some v
  | [], h => by simp [lookupEnv] at h
  | (a, b) :: m, h => by
    by_cases ha : a = k
    · have hhead : ((if (a, b).1 = k then (k, v) else (a, b)) : String × String) = (k, v) := by
        simp [ha]
      rw [List.map_cons, hhead]
      simp [lookupEnv]
    · have hhead : ((if (a, b).1 = k then (k, v) else (a, b)) : String × String) = (a, b) := by
        simp [ha]
      rw [List.map_cons, hhead]
      have hne : k ≠ a := fun hx => ha hx.symm
      simp only [lookupEnv, if_neg hne] at h ⊢
      exact lookupEnv_map_replace_eq k v m h

theorem lookupEnv_dictSet (m : EnvMap) (k v k' : String) :
    lookupEnv k' (dictSet m k v) = if k' = k then some v else lookupEnv k' m := by
  by_cases hk : k' = k
  · subst hk
    rw [if_pos rfl]
    unfold dictSet
    by_cases hp : (lookupEnv k' m).isSome = true
    · rw [if_pos hp]
      exact lookupEnv_map_replace_eq k' v m hp
    · rw [if_neg hp]
      rw [lookupEnv_append]
      cases hl : lookupEnv k' m with
      | some w => rw [hl] at hp; simp at hp
      | none => simp [lookupEnv]
  · rw [if_neg hk]
    unfold dictSet
    by_cases hp : (lookupEnv k m).isSome = true
    · rw [if_pos hp]
      exact lookupEnv_map_replace_ne k v k' hk m
    · rw [if_neg hp]
      rw [lookupEnv_append]
      cases hl : lookupEnv k' m with
      | some w => simp
      | none => simp [lookupEnv, hk]

theorem lookupEnv_dictUpdate (k : String) :
    ∀ (ps m : EnvMap), lookupEnv k (dictUpdate m ps) =
      (match lookupEnv k ps.reverse with
        | some v => some v
        | none => lookupEnv k m)
  | [], m => rfl
  | (a, b) :: ps, m => by
    have hstep : dictUpdate m ((a, b) :: ps) = dictUpdate (dictSet m a b) ps := rfl
    rw [hstep, lookupEnv_dictUpdate k ps (dictSet m a b)]
    simp only [List.reverse_cons]
    rw [lookupEnv_append]
    cases hl : lookupEnv k ps.reverse with
    | some w => simp
    | none =>
      simp only []
      rw [lookupEnv_dictSet]
      by_cases hk : k = a
      · simp [lookupEnv, hk]
      · simp [lookupEnv, hk]

theorem readH_append_lt (h : Heap) (x : EnvMap) (i : Nat) (hi : i < h.length) :
    readH (h ++ [x]) i = readH h i := by
  unfold readH
  rw [List.getD_eq_getElem?_getD, List.getElem?_append_left hi,
    ← List.getD_eq_getElem?_getD]

theorem readH_append_len (h : Heap) (x : EnvMap) :
    readH (h ++ [x]) h.length = x := by
  unfold readH
  rw [List.getD_eq_getElem?_getD, List.getElem?_concat_length]
  rfl

theorem readH_set_self (h : Heap) (v : EnvMap) (i : Nat) (hi : i < h.length) :
    readH (h.set i v) i = v := by
  unfold readH
  rw [List.getD_eq_getElem?_getD, List.getElem?_set_self]
  · rfl
  · simpa using hi

theorem readH_set_ne (h : Heap) (v : EnvMap) (i j : Nat) (hne : j ≠ i) :
    readH (h.set i v) j = readH h j := by
  unfold readH
  rw [List.getD_eq_getElem?_getD, List.getElem?_set_ne (fun hx => hne hx.symm),
    ← List.getD_eq_getElem?_getD]

theorem merge_env_heap_eq (h : Heap) (base : Nat) (ov : EnvMap) :
    merge_env_heap h base ov =
      ((h ++ [readH h base]).set h.length (dictUpdate (readH h base) ov), h.length) := by
  simp only [merge_env_heap, heapCopy, heapUpdateRef]
  rw [readH_append_len]

theorem run_env_heap_eq (h : Heap) (base : Nat) (t : FuzzTarget) (artifacts : String) :
    run_env_heap h base t artifacts =
      (((h ++ [readH h base]).set h.length
          (dictUpdate (readH h base) t.environment)).set h.length
        (dictUpdate (dictUpdate (readH h base) t.environment) (injectedVars t artifacts)),
       h.length) := by
  simp only [run_env_heap]
  rw [merge_env_heap_eq]
  simp only [heapUpdateRef]
  rw [readH_set_self]
  simp

/-- Claim C8: the run-phase environment is the layered merge of the
process-inherited base, overridden by the target's `environment`, overridden
by the scheduler-injected `FUZZ_TARGET`/`FUZZ_PROJECT`/`SANITIZER`/
`ARTIFACT_DIR`; the merge allocates a fresh mapping and never mutates the
base mapping; the build-phase environment is the same merge without the
injected variables. -/
theorem run_env_is_layered_and_never_mutates_base
    (h : Heap) (base : Nat) (t : FuzzTarget) (artifacts : String)
    (hbase : base < h.length) :
    (run_env_heap h base t artifacts).2 ≠ base ∧
    readH (run_env_heap h base t artifacts).1 base = readH h base ∧
    (∀ k, lookupEnv k (readH (run_env_heap h base t artifacts).1
        (run_env_heap h base t artifacts).2) =
      (match lookupEnv k (injectedVars t artifacts).reverse with
        | some v => some v
        | none =>
          match lookupEnv k t.environment.reverse with
          | some v => some v
          | none => lookupEnv k (readH h base))) ∧
    lookupEnv ("FUZZ_TARGET") (readH (run_env_heap h base t artifacts).1
      (run_env_heap h base t artifacts).2) = some (pyStr t.fuzz_target) ∧
    lookupEnv ("FUZZ_PROJECT") (readH (run_env_heap h base t artifacts).1
      (run_env_heap h base t artifacts).2) = some (pyStr t.project) ∧
    lookupEnv ("SANITIZER") (readH (run_env_heap h base t artifacts).1
      (run_env_heap h base t artifacts).2) = some (pyStr t.sanitizer) ∧
    lookupEnv ("ARTIFACT_DIR") (readH (run_env_heap h base t artifacts).1
      (run_env_heap h base t artifacts).2) =
      some (artifacts ++ ("/") ++ pyStr t.name) ∧
    (build_env_heap h base t).2 ≠ base ∧
    readH (build_env_heap h base t).1 base = readH h base ∧
    (∀ k, lookupEnv k (readH (build_env_heap h base t).1 (build_env_heap h base t).2) =
      (match lookupEnv k t.environment.reverse with
        | some v => some v
        | none => lookupEnv k (readH h base))) := by
  have hne : base ≠ h.length := fun hx => by omega
  have hrewrite := run_env_heap_eq h base t artifacts
  have hlen1 : h.length < (h ++ [readH h base]).length := by simp
  have hlen2 : h.length <
      ((h ++ [readH h base]).set h.length (dictUpdate (readH h base) t.environment)).length := by
    simp
  have hreadfinal : readH (run_env_heap h base t artifacts).1
      (run_env_heap h base t artifacts).2 =
      dictUpdate (dictUpdate (readH h base) t.environment) (injectedVars t artifacts) := by
    rw [hrewrite]
    exact readH_set_self _ _ _ hlen2
  have hformula : ∀ k, lookupEnv k (readH (run_env_heap h base t artifacts).1
      (run_env_heap h base t artifacts).2) =
      (match lookupEnv k (injectedVars t artifacts).reverse with
        | some v => some v
        | none =>
          match lookupEnv k t.environment.reverse with
          | some v => some v
          | none => lookupEnv k (readH h base)) := by
    intro k
    rw [hreadfinal, lookupEnv_dictUpdate, lookupEnv_dictUpdate]
  have hbuildrw : build_env_heap h base t =
      ((h ++ [readH h base]).set h.length (dictUpdate (readH h base) t.environment),
        h.length) := merge_env_heap_eq h base t.environment
  refine ⟨?_, ?_, hformula, ?_, ?_, ?_, ?_, ?_, ?_, ?_⟩
  · rw [hrewrite]
    exact fun hx => hne hx.symm
  · rw [hrewrite]
    show readH (List.set _ _ _) base = readH h base
    rw [readH_set_ne _ _ _ _ hne, readH_set_ne _ _ _ _ hne, readH_append_lt _ _ _ hbase]
  · rw [hformula]
    simp [injectedVars, lookupEnv]
  · rw [hformula]
    simp [injectedVars, lookupEnv]
  · rw [hformula]
    simp [injectedVars, lookupEnv]
  · rw [hformula]
    simp [injectedVars, lookupEnv]
  · rw [hbuildrw]
    exact fun hx => hne hx.symm
  · rw [hbuildrw]
    show readH (List.set _ _ _) base = readH h base
    rw [readH_set_ne _ _ _ _ hne, readH_append_lt _ _ _ hbase]
  · intro k
    rw [hbuildrw]
    show lookupEnv k (readH (List.set _ _ _) h.length) = _
    rw [readH_set_self _ _ _ hlen1, lookupEnv_dictUpdate]

def baseEnvW : EnvMap := [(("PATH"), ("/usr/bin")), (("SANITIZER"), ("memory"))]

def tEnvW : FuzzTarget := {
  name := .str ("w"), project := .str ("p"), fuzz_target := .str ("f"),
  environment := [(("PATH"), ("/opt")), (("EXTRA"), ("1"))] }

/-- Witness for `run_env_is_layered_and_never_mutates_base`: the base keeps
its original contents, the injected `SANITIZER` wins over the base value,
and the target override of `PATH` wins over the base value. -/
theorem run_env_layering_witness :
    readH (run_env_heap [baseEnvW] 0 tEnvW ("/a")).1 0 = baseEnvW ∧
    lookupEnv ("SANITIZER") (readH (run_env_heap [baseEnvW] 0 tEnvW ("/a")).1
      (run_env_heap [baseEnvW] 0 tEnvW ("/a")).2) = some ("address") ∧
    lookupEnv ("PATH") (readH (run_env_heap [baseEnvW] 0 tEnvW ("/a")).1
      (run_env_heap [baseEnvW] 0 tEnvW ("/a")).2) = some ("/opt") := by
  obtain ⟨hfresh, hbase, hformula, hft, hfp, hsan, hart, _, _, _⟩ :=
    run_env_is_layered_and_never_mutates_base [baseEnvW] 0 tEnvW ("/a")
      (by simp)
  refine ⟨?_, ?_, ?_⟩
  · rw [hbase]
    rfl
  · rw [hsan]
    simp [tEnvW, pyStr]
  · rw [hformula ("PATH")]
    simp [tEnvW, injectedVars, lookupEnv, pyStr]

def entryC9 : YVal := .map [(("name"), .str ("a")), (("project"), .str ("p1")),
  (("fuzz_target"), .str ("fz"))]

def docC9 : YVal := .map [(("targets"), .list [entryC9])]

def tC9 : FuzzTarget := {
  name := .str ("a")
  project := .str ("p1")
  fuzz_target := .str ("fz") }

def wOkC9 : OrchWorld := {
  helperExists := true
  configExists := true
  yamlResult := .ok docC9
  dictExists := fun _ => true
  baseEnv := []
  buildExit := fun _ => 0
  runExit := fun _ => 0
  schedule := []
  maxParallel := 2
  interrupted := false }

/-- Claim C9: the top-level driver exits 0 on success, 1 when the helper
script is missing, on every configuration failure (any error out of
`load_targets` other than a user interrupt, uncaught exceptions included)
and on every build-phase or run-phase failure, and 130 on user
interruption. -/
theorem driver_exit_codes (w : OrchWorld) :
    (w.helperExists = false → processExit w = 1) ∧
    (w.helperExists = true → w.interrupted = false →
      ∀ e, load_targets w.configExists w.yamlResult w.dictExists = .error e →
        e ≠ .keyboardInterrupt → processExit w = 1) ∧
    (w.helperExists = true → w.interrupted = false →
      ∀ ts, load_targets w.configExists w.yamlResult w.dictExists = .ok ts →
        (build_projects w.buildExit ts w.baseEnv).2 ≠ none →
          processExit w = 1) ∧
    (w.helperExists = true → w.interrupted = false →
      ∀ ts, load_targets w.configExists w.yamlResult w.dictExists = .ok ts →
        (build_projects w.buildExit ts w.baseEnv).2 = none →
        (run_targets w.runExit w.schedule ts w.maxParallel).failed ≠ none →
          processExit w = 1) ∧
    (w.helperExists = true → w.interrupted = true → processExit w = 130) ∧
    (w.helperExists = true → w.interrupted = false →
      ∀ ts, load_targets w.configExists w.yamlResult w.dictExists = .ok ts →
        (build_projects w.buildExit ts w.baseEnv).2 = none →
        (run_targets w.runExit w.schedule ts w.maxParallel).failed = none →
        processExit w = 0) := by
  refine ⟨?_, ?_, ?_, ?_, ?_, ?_⟩
  · intro hhe
    simp [processExit, main_model, hhe]
  · intro hhe hni e hload hne
    simp only [processExit, main_model, orchestrate, hhe, hni, hload]
    cases e <;> simp_all
  · intro hhe hni ts hload hbuild
    cases h : (build_projects w.buildExit ts w.baseEnv).2 with
    | none => exact absurd h hbuild
    | some e => simp [processExit, main_model, orchestrate, hhe, hni, hload, h]
  · intro hhe hni ts hload hbuild hrun
    cases h : (run_targets w.runExit w.schedule ts w.maxParallel).failed with
    | none => exact absurd h hrun
    | some f =>
      simp [processExit, main_model, orchestrate, hhe, hni, hload, hbuild, h]
  · intro hhe hint
    simp [processExit, main_model, orchestrate, hhe, hint]
  · intro hhe hni ts hload hbuild hrun
    simp [processExit, main_model, orchestrate, hhe, hni, hload, hbuild, hrun]

/-- Witness for `driver_exit_codes`: concrete worlds hitting each exit
path — missing helper (1), missing config file (1), failing build helper
(1), failing run helper (1), user interrupt (130), clean run (0). -/
theorem driver_exit_codes_witness :
    processExit { wOkC9 with helperExists := false } = 1 ∧
    processExit { wOkC9 with configExists := false } = 1 ∧
    processExit { wOkC9 with buildExit := fun _ => 1 } = 1 ∧
    processExit { wOkC9 with runExit := fun _ => 2 } = 1 ∧
    processExit { wOkC9 with interrupted := true } = 130 ∧
    processExit wOkC9 = 0 := by
  have hload : load_targets true (.ok docC9) (fun _ => true) = .ok [tC9] := by
    simp [docC9, entryC9, tC9, load_targets, mapGet, parseEntries, entryOutcome,
      entryLabel, FuzzTarget.from_dict, binariesOf, defaultRunSecondsOf,
      defaultArgsRawOf, dictionaryPathOf, environmentPairsOf,
      FuzzTarget.validate, missingOf, requiredFields, getTruthy, truthy, pyInt,
      pyIter, pySubscript0, pyGetD, pathOf, List.lookup, ensure_unique_names,
      collectDuplicates, allStrings, sortStr, insertStr, List.contains,
      List.elem, beq_yval, yeq]
  have hbuildOk : (build_projects (fun _ => 0) [tC9] []).2 = none := by
    simp [build_projects, build_projects_go, mkBuildInvocation, buildKey, tC9]
  have hrunOk :
      (run_targets (fun _ => 0) [] [tC9] 2).failed = none := by
    simp [run_targets, runLoop, worker_count, nameAt, List.range,
      List.range.loop, tC9]
  refine ⟨?_, ?_, ?_, ?_, ?_, ?_⟩
  · exact (driver_exit_codes _).1 rfl
  · exact (driver_exit_codes _).2.1 rfl rfl (.orchestrator .configNotFound)
      (by simp [wOkC9, load_targets]) (by decide)
  · exact (driver_exit_codes _).2.2.1 rfl rfl [tC9] (by simpa [wOkC9] using hload)
      (by simp [wOkC9, build_projects, build_projects_go, mkBuildInvocation,
        buildKey, tC9])
  · exact (driver_exit_codes _).2.2.2.1 rfl rfl [tC9]
      (by simpa [wOkC9] using hload) (by simpa [wOkC9] using hbuildOk)
      (by simp [wOkC9, run_targets, runLoop, worker_count, nameAt, List.range,
        List.range.loop, tC9])
  · exact (driver_exit_codes _).2.2.2.2.1 rfl rfl
  · exact (driver_exit_codes _).2.2.2.2.2 rfl rfl [tC9]
      (by simpa [wOkC9] using hload) (by simpa [wOkC9] using hbuildOk)
      (by simpa [wOkC9] using hrunOk)
